import Mathlib

/-!
Shallow embedding of the sales-report generator (`main.py`) and proofs about it.

The program ingests spreadsheet exports of sales transactions, validates and
normalizes them into records, and synthesizes a multi-sheet reporting workbook.
We embed the processing core faithfully:

* dynamic Python values (`Val`) cover the cell/field values the program handles:
  missing cells (NaN), strings, ints, floats and datetimes;
* floats are modelled as exact rationals; Python renders a float by its shortest
  round-trip decimal, which for integer-valued floats is `<digits>.0` — the only
  case any theorem relies on;
* `pandas.read_excel` and the workbook writer are external collaborators; a file
  enters the embedding as its rectangular grid of cell values (`DataFrame`),
  and workbook writing is represented by the structured data handed to it;
* `pandas.to_datetime` is an external parser; it is modelled on the inputs the
  theorems exercise: ISO `YYYY-MM-DD` strings parse, non-date strings like
  "abc" fail (as in pandas), and numeric inputs succeed (pandas reads them as
  epoch offsets);
* operations that can raise in Python (`df.iloc` out of range, `row[i]` beyond
  the sheet width, `.strip()` on a non-string, `''.split()[0]`) return `none`,
  and the raise propagates through `Option` like a Python exception.
-/

namespace SalesRep

/-- Calendar date as carried by a Python `datetime` value (time-of-day is not
inspected by any of the embedded code paths). -/
structure Datetime where
  year : Nat
  month : Nat
  day : Nat
deriving DecidableEq, Repr

/-- The minimum datetime (`datetime.min`), used as the sort default. -/
def dt_min : Datetime := ⟨1, 1, 1⟩

/-- Lexicographic strict order on dates, as Python compares datetimes. -/
def dtLt (a b : Datetime) : Bool :=
  if a.year < b.year then true
  else if b.year < a.year then false
  else if a.month < b.month then true
  else if b.month < a.month then false
  else decide (a.day < b.day)

/-- Dynamic Python value: a spreadsheet cell or a record field. `na` is a
missing cell (pandas NaN); `f` is a Python float modelled as an exact rational. -/
inductive Val where
  | na
  | s (x : String)
  | i (n : Int)
  | f (q : ℚ)
  | d (t : Datetime)
deriving DecidableEq, Repr

/-- Python truthiness of a `Val`. Note `float('nan')` is truthy in Python. -/
def pyTruthy : Val → Bool
  | .na => true
  | .s x => decide (x ≠ "")
  | .i n => decide (n ≠ 0)
  | .f q => decide (q ≠ 0)
  | .d _ => true

/-- Is the value a missing cell (`pd.isna`)? -/
def isna : Val → Bool
  | .na => true
  | _ => false

/-- ASCII lowercase letter test, the `[a-z]` class (code points 97-122). -/
def isLowerA (c : Char) : Bool := decide (97 ≤ c.toNat ∧ c.toNat ≤ 122)

/-- ASCII uppercase letter test, the `[A-Z]` class (code points 65-90). -/
def isUpperA (c : Char) : Bool := decide (65 ≤ c.toNat ∧ c.toNat ≤ 90)

/-- ASCII letter test, the `[a-zA-Z]` class of the normalizer's regexes. -/
def isLetterA (c : Char) : Bool := isLowerA c || isUpperA c

/-- ASCII digit test, the `[0-9]` class (code points 48-57). -/
def isDigitA (c : Char) : Bool := decide (48 ≤ c.toNat ∧ c.toNat ≤ 57)

/-- ASCII alphanumeric test, the `[a-zA-Z0-9]` class. -/
def isAlnumA (c : Char) : Bool := isLetterA c || isDigitA c

/-- Whitespace as stripped by Python `str.strip()` (ASCII whitespace: space,
tab, newline, carriage return, vertical tab, form feed). -/
def pyIsSpace (c : Char) : Bool :=
  decide (c.toNat = 32 ∨ c.toNat = 9 ∨ c.toNat = 10 ∨ c.toNat = 13 ∨
          c.toNat = 11 ∨ c.toNat = 12)

/-- Python `str.upper()` on one character; letter runs in this program are
ASCII, where uppercasing subtracts 32 from a lowercase code point. -/
def pyToUpper (c : Char) : Char :=
  if isLowerA c then Char.ofNat (c.toNat - 32) else c

/-- Python `str.lower()` on one character (ASCII). -/
def pyToLower (c : Char) : Char :=
  if isUpperA c then Char.ofNat (c.toNat + 32) else c

/-- Strip leading and trailing whitespace from a character list. -/
def stripL (l : List Char) : List Char :=
  ((l.dropWhile pyIsSpace).reverse.dropWhile pyIsSpace).reverse

/-- Python `str.strip()`. -/
def pyStrip (s : String) : String := String.mk (stripL s.data)

/-- Python `str(v)` for the values the program converts. A float's shortest
round-trip decimal is modelled exactly in the integer-valued case
(`1230.0` renders as "1230.0"); non-integer floats get a nominal rendering
that no theorem relies on. Datetimes likewise get a nominal rendering. -/
def pyStrVal : Val → String
  | .na => "nan"
  | .s x => x
  | .i n => toString n
  | .f q => if q.den = 1 then toString q.num ++ ".0"
            else toString q.num ++ "/" ++ toString q.den
  | .d t => "datetime(" ++ toString t.year ++ "," ++ toString t.month ++ "," ++ toString t.day ++ ")"

/-- Section: Configuration Class (`ColumnConfig`). Fixed words kept uppercase
for customer names. -/
def preserve_upper_customer : List String := ["ABC", "BAL", "TSG"]

/-- Fixed words kept uppercase for product names. -/
def preserve_upper_product : List String := ["GMS", "HVP", "WCI", "BBQ", "KAN"]

/-- Area abbreviation to full-name replacements. -/
def area_replacements : List (String × String) :=
  [("Bdg", "Bandung"), ("Bgr", "Bogor"), ("Bks", "Bekasi"), ("Jkt", "Jakarta"),
   ("Lpg", "Lampung"), ("Mdn", "Medan"), ("Tgr", "Tangerang")]

/-- Converts a column letter to a zero-based index (`col_to_index`). -/
def col_to_index (c : Char) : Nat := c.toUpper.toNat - 'A'.toNat

/-- Split a character list into the maximal runs of constant `cls`-class, as
the alternation regexes `[a-zA-Z0-9]+|[^a-zA-Z0-9]+` and `[a-zA-Z]+|[0-9]+`
do via `re.findall`. -/
def chunkBy (cls : Char → Bool) : List Char → List (List Char)
  | [] => []
  | c :: cs =>
    match chunkBy cls cs with
    | [] => [[c]]
    | [] :: rest => [c] :: rest
    | (d :: ds) :: rest =>
      if cls c = cls d then (c :: d :: ds) :: rest
      else [c] :: (d :: ds) :: rest

/-- Python `str.upper()` on an ASCII run. -/
def upperRun (l : List Char) : List Char := l.map pyToUpper

/-- Python `str.capitalize()`: first character uppercased, the rest lowercased. -/
def capitalizeRun : List Char → List Char
  | [] => []
  | c :: cs => pyToUpper c :: cs.map pyToLower

/-- Case a letter-subrun (`proper_case` inner loop): keep it uppercase when its
uppercased form is in the preserve-set, keep short runs as typed, else
capitalize. -/
def processLetterRun (pres : List String) (sub : List Char) : List Char :=
  let up := upperRun sub
  if String.mk up ∈ pres then up
  else if sub.length ≤ 2 then sub
  else capitalizeRun sub

/-- Process one subrun of an alphanumeric word: digit subruns pass through
(`sub.isdigit()`), letter subruns are cased. -/
def processSub (pres : List String) (sub : List Char) : List Char :=
  if sub.all isDigitA then sub else processLetterRun pres sub

/-- Process one alphanumeric word of `proper_case`: split into letter and digit
subruns, copy digit subruns, case letter subruns. -/
def processWord (pres : List String) (part : List Char) : List Char :=
  ((chunkBy isLetterA part).map (processSub pres)).flatten

/-- Process one run of `proper_case`: alphanumeric words (the
`^[a-zA-Z0-9]+$` test) are processed, separator runs are copied unchanged. -/
def processPart (pres : List String) (part : List Char) : List Char :=
  if part.all isAlnumA then processWord pres part else part

/-- Core of `proper_case` on a character list: strip, split into alphanumeric
words and separator runs, process words, copy separators. -/
def properCaseCore (pres : List String) (l : List Char) : List Char :=
  ((chunkBy isAlnumA (stripL l)).map (processPart pres)).flatten

/-- The Text Normalizer `proper_case(text, preserve_upper)` on a string input. -/
def proper_case (text : String) (preserve_upper : List String) : String :=
  if text = "" then "" else String.mk (properCaseCore preserve_upper text.data)

/-- The normalizer applied to a dynamic value, as the call sites do: falsy
values normalize to the empty string, anything else is `str()`-converted
first. -/
def proper_case_val (v : Val) (pres : List String) : String :=
  if pyTruthy v then String.mk (properCaseCore pres (pyStrVal v).data) else ""

/-- The Area Resolver `process_area`: on a falsy value return `''`; on a string,
take the first whitespace-delimited token of the stripped text, normalize it
with an empty preserve-set, and apply the abbreviation map. A truthy
non-string raises (`.strip()` on a non-string) and a whitespace-only truthy
string raises (`''.split()[0]`); both are `none`. -/
def process_area (area : Val) (replacements : List (String × String)) : Option String :=
  if pyTruthy area then
    match area with
    | .s a =>
      match stripL a.data with
      | [] => none
      | _ :: _ =>
        let tok := String.mk ((stripL a.data).takeWhile (fun c => !pyIsSpace c))
        let pc := proper_case tok []
        some (((replacements.find? (fun p => p.1 = pc)).map (·.2)).getD pc)
    | _ => none
  else some ""

/-- Rectangular tabular content of one file, as handed over by the external
tabular reader (`pd.read_excel` with `header=None`). pandas pads ragged rows
with NaN up to the maximal width. -/
structure DataFrame where
  rows : List (List Val)
deriving DecidableEq, Repr

/-- The sheet width, `df.shape[1]`. -/
def dfWidth (df : DataFrame) : Nat := (df.rows.map List.length).foldr max 0

/-- Positional scalar access `df.iloc[r, c]`: `none` models the `IndexError`
pandas raises when the position is out of bounds; in-bounds positions of a
short row read as NaN (pandas pads). -/
def iloc (df : DataFrame) (r c : Nat) : Option Val :=
  match df.rows.get? r with
  | none => none
  | some row => if c < dfWidth df then some (row.getD c Val.na) else none

/-- Is a cell blank for validation purposes: missing or whitespace-only text
(`pd.isna(cell) or str(cell).strip() == ''`). -/
def blankCell (v : Val) : Bool := isna v || decide (pyStrip (pyStrVal v) = "")

/-- Section: Structure Validation (`validate_structure`). Checks that rows 4-6
(0-based 3-5) of column K are blank; a sheet narrower than column K is valid.
Returns `none` when `df.iloc` raises (sheet has data but fewer than 6 rows). -/
def validate_structure (df : DataFrame) : Option Bool :=
  let validation_idx := col_to_index 'K'
  if dfWidth df ≤ validation_idx then some true
  else do
    let c1 ← iloc df 3 validation_idx
    let c2 ← iloc df 4 validation_idx
    let c3 ← iloc df 5 validation_idx
    some (blankCell c1 && blankCell c2 && blankCell c3)

/-- Value of a digit string under the usual base-10 reading. -/
def digitsVal (l : List Char) : Nat :=
  l.foldl (fun acc c => acc * 10 + (c.toNat - '0'.toNat)) 0

/-- Python `int(s)` for digit strings (`int()` raises otherwise; the program
only applies it to digit substrings of canonical period keys). -/
def parseNatD (s : String) : Nat :=
  s.data.foldl (fun acc c => acc * 10 + (c.toNat - '0'.toNat)) 0

/-- Parse a nonempty all-digit run. -/
def digitsToNat (l : List Char) : Option Nat :=
  if l.isEmpty then none
  else if l.all isDigitA then some (l.foldl (fun acc c => acc * 10 + (c.toNat - '0'.toNat)) 0)
  else none

/-- Python `float(s)` on the plain decimal forms `[+-]?digits[.digits]?` /
`[+-]?.digits` (whitespace-stripped). Python also accepts exponents and
inf/nan spellings; those simply do not occur in the inputs our theorems use. -/
def pyFloatOfString (s : String) : Option ℚ :=
  let t := stripL s.data
  let signed : List Char → Option ℚ := fun l =>
    let core : List Char → Option ℚ := fun body =>
      match body.span (fun c => !decide (c = '.')) with
      | (intp, []) => (digitsToNat intp).map (fun n => (n : ℚ))
      | (intp, _ :: frac) =>
        if frac.all isDigitA ∧ (intp ≠ [] ∨ frac ≠ []) ∧ intp.all isDigitA then
          some ((intp.foldl (fun acc c => acc * 10 + (c.toNat - '0'.toNat)) 0 : ℚ) +
                (frac.foldl (fun acc c => acc * 10 + (c.toNat - '0'.toNat)) 0 : ℚ) / ((10 : ℚ) ^ frac.length))
        else none
    match l with
    | '+' :: rest => core rest
    | '-' :: rest => (core rest).map (fun q => -q)
    | _ => core l
  signed t

/-- Python `float(v)` as used for quantity and unit-price cells: numbers pass
through, parseable numeric strings convert, anything else raises (caught by
the caller, which substitutes `''`). -/
def pyFloat : Val → Option ℚ
  | .i n => some (n : ℚ)
  | .f q => some q
  | .s x => pyFloatOfString x
  | _ => none

/-- Strict ISO date `YYYY-MM-DD`. This is the slice of `pandas.to_datetime`
string parsing our inputs exercise; out-of-range or non-digit forms fail. -/
def parseDate10 (s : String) : Option Datetime :=
  match s.data with
  | [y1, y2, y3, y4, '-', m1, m2, '-', d1, d2] =>
    if [y1, y2, y3, y4, m1, m2, d1, d2].all isDigitA then
      let y := digitsVal [y1, y2, y3, y4]
      let m := digitsVal [m1, m2]
      let d := digitsVal [d1, d2]
      if 1 ≤ m ∧ m ≤ 12 ∧ 1 ≤ d ∧ d ≤ 31 then some ⟨y, m, d⟩ else none
    else none
  | _ => none

/-- Model of the external `pandas.to_datetime`: datetimes pass through, strings
parse or fail as above, numbers succeed (pandas reads them as nanosecond
offsets from the epoch; the calendar fields are modelled for small offsets,
which no theorem inspects), NaN becomes NaT without raising. -/
def pd_to_datetime : Val → Option Datetime
  | .d t => some t
  | .s x => parseDate10 x
  | .i _ => some ⟨1970, 1, 1⟩
  | .f _ => some ⟨1970, 1, 1⟩
  | .na => some ⟨1970, 1, 1⟩

/-- Python `str.rstrip('.0')`: removes ALL trailing characters drawn from the
set containing '.' and '0', not just a trailing ".0" suffix. -/
def rstripDot0 (s : String) : String :=
  String.mk ((s.data.reverse.dropWhile (fun c => decide (c = '.') || decide (c = '0'))).reverse)

/-- One extracted Record (`row_data` of `extract_data`): column B is the area,
C the date, D the invoice number, E the customer, F the product type, G the
product name, H the quantity, I the unit price. -/
structure Record where
  area : Val
  date : Val
  invoice_no : Val
  customer_name : Val
  product_type : Val
  product_name : Val
  quantity : Val
  unit_price : Val
deriving DecidableEq, Repr

/-- Per-cell conversion of `extract_data`: NaN becomes `''`; H and I parse as
floats defaulting to `''`; C converts text/int/float sources to a datetime
when parseable, keeping the original otherwise; D is forced to a string, a
float source via `str(val).rstrip('.0')`. -/
def extractCell (c : Char) (v : Val) : Val :=
  if isna v then .s ""
  else if c = 'H' ∨ c = 'I' then
    match pyFloat v with
    | some q => .f q
    | none => .s ""
  else if c = 'C' then
    match v with
    | .s _ | .i _ | .f _ =>
      match pd_to_datetime v with
      | some t => .d t
      | none => v
    | _ => v
  else if c = 'D' then
    match v with
    | .f q => .s (rstripDot0 (pyStrVal (.f q)))
    | _ => .s (pyStrVal v)
  else v

/-- Access `row[idx]` of a pandas row: in-width positions of a short row read
as NaN; a position beyond the sheet width raises (`KeyError`), i.e. `none`. -/
def rowGet (df : DataFrame) (row : List Val) (idx : Nat) : Option Val :=
  if idx < dfWidth df then some (row.getD idx Val.na) else none

/-- Section: Data Extraction (`extract_data`): skip the first 3 rows; drop rows
whose main column B is blank; extract columns B-I with per-cell conversion.
`none` models the `KeyError` raised when the sheet is narrower than the
extraction columns on a retained row. -/
def extract_data (df : DataFrame) : Option (List Record) :=
  (df.rows.drop 3).foldlM (fun acc row => do
    let mainv ← rowGet df row 1
    if isna mainv ∨ pyStrip (pyStrVal mainv) = "" then pure acc
    else do
      let vb ← rowGet df row 1
      let vc ← rowGet df row 2
      let vd ← rowGet df row 3
      let ve ← rowGet df row 4
      let vf ← rowGet df row 5
      let vg ← rowGet df row 6
      let vh ← rowGet df row 7
      let vi ← rowGet df row 8
      pure (acc ++ [⟨extractCell 'B' vb, extractCell 'C' vc, extractCell 'D' vd,
                     extractCell 'E' ve, extractCell 'F' vf, extractCell 'G' vg,
                     extractCell 'H' vh, extractCell 'I' vi⟩])) []

/-- Section: Date Validation (`validate_dates`): every record must have a date
that is falsy, already a datetime, or a text/number that parses. -/
def validate_dates (data : List Record) : Bool :=
  data.all fun row =>
    if pyTruthy row.date && !(match row.date with | .d _ => true | _ => false) then
      match row.date with
      | .s _ | .i _ | .f _ => (pd_to_datetime row.date).isSome
      | _ => false
    else true

/-- Stable insertion of `x` into a list: `x` goes before the first element not
strictly below it, so elements that compare equal keep their original order. -/
def insertLt {α : Type} (lt : α → α → Bool) (x : α) : List α → List α
  | [] => [x]
  | a :: t => if lt a x then a :: insertLt lt x t else x :: a :: t

/-- Stable ascending sort by a strict comparison, modelling Python `sorted`. -/
def pysort {α : Type} (lt : α → α → Bool) : List α → List α
  | [] => []
  | x :: t => insertLt lt x (pysort lt t)

/-- Keep the first occurrence of each element (used to model iterating a set
built by repeated insertion; where the program sorts afterwards, the choice
of representative order is immaterial). -/
def firstDedupAux {α : Type} [DecidableEq α] (seen : List α) : List α → List α
  | [] => []
  | x :: t => if x ∈ seen then firstDedupAux seen t else x :: firstDedupAux (x :: seen) t

/-- First-occurrence deduplication. -/
def firstDedup {α : Type} [DecidableEq α] (l : List α) : List α := firstDedupAux [] l

/-- Strict lexicographic order on character lists by code point, as Python
compares strings. -/
def lexLt : List Char → List Char → Bool
  | _, [] => false
  | [], _ :: _ => true
  | a :: as, b :: bs => if a < b then true else if b < a then false else lexLt as bs

/-- Python string comparison `a < b`. -/
def strLt (a b : String) : Bool := lexLt a.data b.data

/-- Zero-padded two-digit month, the `{m:02d}` format. -/
def pad2 (m : Nat) : String := if m < 10 then "0" ++ toString m else toString m

/-- The `strftime('%Y-%m')` period key of a datetime (years of real data are
four digits, so `%Y` needs no padding). -/
def fmtYM (t : Datetime) : String := toString t.year ++ "-" ++ pad2 t.month

/-- Periods collected by `process_data`: the `'%Y-%m'` keys of the records
whose date is a (truthy) datetime. -/
def collectPeriods (rows : List Record) : List String :=
  rows.filterMap fun r =>
    match r.date with
    | .d t => some (fmtYM t)
    | _ => none

/-- Per-record normalization step of `process_data`: resolve the area, normalize
customer and product names, force invoice number and product type to strings,
blank falsy quantity and unit price (zero becomes `''`). `none` propagates a
raise from `process_area`. -/
def process_row (r : Record) : Option Record := do
  let area ← process_area r.area area_replacements
  pure { area := .s area,
         date := r.date,
         invoice_no := .s (if pyTruthy r.invoice_no then pyStrVal r.invoice_no else ""),
         customer_name := .s (proper_case_val r.customer_name preserve_upper_customer),
         product_type := .s (if pyTruthy r.product_type then pyStrVal r.product_type else ""),
         product_name := .s (proper_case_val r.product_name preserve_upper_product),
         quantity := if pyTruthy r.quantity then r.quantity else .s "",
         unit_price := if pyTruthy r.unit_price then r.unit_price else .s "" }

/-- Sort key of the final record sort: the date when it is a datetime, else
`datetime.min` (`x.get('date') or datetime.min`; after validation a record's
date is a datetime or a falsy leftover). -/
def dtKey (r : Record) : Datetime :=
  match r.date with
  | .d t => t
  | _ => dt_min

/-- Section: Data Processing (`process_data`): normalize every record, collect
the sorted distinct periods, and stable-sort records ascending by date. -/
def process_data (rows : List Record) : Option (List String × List Record) := do
  let processed ← rows.mapM process_row
  pure (pysort strLt (firstDedup (collectPeriods processed)),
        pysort (fun a b => dtLt (dtKey a) (dtKey b)) processed)

/-- The eight required fields and their fixed output column letters
(`key_to_col` of `check_blanks`). -/
inductive FieldKey where
  | area | date | invoice_no | customer_name | product_type | product_name | quantity | unit_price
deriving DecidableEq, Repr

/-- Field accessor on a record. -/
def getField (r : Record) : FieldKey → Val
  | .area => r.area
  | .date => r.date
  | .invoice_no => r.invoice_no
  | .customer_name => r.customer_name
  | .product_type => r.product_type
  | .product_name => r.product_name
  | .quantity => r.quantity
  | .unit_price => r.unit_price

/-- The `key_to_col` table of `check_blanks`, in source order. -/
def key_to_col : List (FieldKey × String) :=
  [(.area, "A"), (.date, "B"), (.invoice_no, "D"), (.customer_name, "E"),
   (.product_type, "F"), (.product_name, "G"), (.quantity, "H"), (.unit_price, "I")]

/-- Warning coordinates for the suffix of the record list starting at 1-based
position `i`. -/
def blanksFrom : Nat → List Record → List String
  | _, [] => []
  | i, r :: t =>
    (key_to_col.filterMap (fun kc =>
      if pyTruthy (getField r kc.1) then none else some (kc.2 ++ toString (i + 1)))) ++
    blanksFrom (i + 1) t

/-- Section: Blank Check (`check_blanks`): records enumerated from 1; a falsy
required field at 1-based position `i` yields the coordinate `{col}{i+1}`. -/
def check_blanks (rows : List Record) : List String := blanksFrom 1 rows

/-- The three grouping dimensions of the group sheets. -/
inductive GroupKey where
  | customer_name | area | product_name
deriving DecidableEq, Repr

/-- Group value of a record, `row[group_key]`. -/
def groupVal (r : Record) : GroupKey → Val
  | .customer_name => r.customer_name
  | .area => r.area
  | .product_name => r.product_name

/-- The three units of the group sheets. -/
inductive UnitKind where
  | IDR | USD | Qty
deriving DecidableEq, Repr

/-- The ranking unit: USD shares the IDR ranking (`sort_unit`). -/
def sort_unit : UnitKind → UnitKind
  | .USD => .IDR
  | u => u

/-- `isinstance(x, (float, int))` read off a value, with the number itself. -/
def isNumV : Val → Option ℚ
  | .i n => some (n : ℚ)
  | .f q => some q
  | _ => none

/-- `d[k] += x` on an insertion-ordered float defaultdict rendered as an
association list. -/
def bumpAssoc {κ : Type} [DecidableEq κ] (l : List (κ × ℚ)) (k : κ) (x : ℚ) : List (κ × ℚ) :=
  match l with
  | [] => [(k, x)]
  | (a, b) :: t => if a = k then (a, b + x) :: t else (a, b) :: bumpAssoc t k x

/-- One iteration of the `group_to_total` accumulation of
`generate_group_sheet`: a row with a numeric quantity contributes; for
monetary ranking the unit price must also be numeric, contributing quantity
times price. -/
def group_step (gk : GroupKey) (u : UnitKind) (acc : List (Val × ℚ)) (r : Record) :
    List (Val × ℚ) :=
  match isNumV r.quantity with
  | none => acc
  | some q =>
    if sort_unit u = .Qty then bumpAssoc acc (groupVal r gk) q
    else
      match isNumV r.unit_price with
      | some p => bumpAssoc acc (groupVal r gk) (q * p)
      | none => acc

/-- The `group_to_total` accumulation over all records. -/
def group_to_total (gk : GroupKey) (u : UnitKind) (rows : List Record) : List (Val × ℚ) :=
  rows.foldl (group_step gk u) []

/-- Does a record contribute to the group totals of a sheet of unit `u`
(numeric quantity; for monetary ranking also a numeric unit price)? -/
def qualifies (u : UnitKind) (r : Record) : Bool :=
  match isNumV r.quantity with
  | none => false
  | some _ =>
    if sort_unit u = .Qty then true
    else (isNumV r.unit_price).isSome

/-- The group values of the contributing records, in record order: the order
in which the totals dictionary first sees each group. -/
def contributing_groups (gk : GroupKey) (u : UnitKind) (rows : List Record) : List Val :=
  rows.filterMap (fun r => if qualifies u r then some (groupVal r gk) else none)

/-- Total of a group in an accumulated association list (`dict` lookup; the
0 default matches `.get(g, 0)` at the yearly call site). -/
def totalOf (l : List (Val × ℚ)) (g : Val) : ℚ :=
  (((l.find? (fun p => p.1 = g)).map (·.2)).getD 0)

/-- The ordered group column of a primary group sheet:
`sorted(group_to_total.keys(), key=lambda g: -group_to_total[g])`. -/
def sheet_groups (gk : GroupKey) (u : UnitKind) (rows : List Record) : List Val :=
  let gt := group_to_total gk u rows
  pysort (fun a b => decide (totalOf gt b < totalOf gt a)) (gt.map Prod.fst)

/-- Nested `year -> group -> total` accumulation (`compute_yearly_sort_totals`),
insertion-ordered at both levels. -/
def bump2 (l : List (String × List (Val × ℚ))) (y : String) (g : Val) (x : ℚ) :
    List (String × List (Val × ℚ)) :=
  match l with
  | [] => [(y, [(g, x)])]
  | (a, m) :: t => if a = y then (a, bumpAssoc m g x) :: t else (a, m) :: bump2 t y g x

/-- One iteration of the yearly totals accumulation
(`compute_yearly_sort_totals` loop body): records with a datetime date and
numeric quantity (and, for monetary units, numeric unit price) contribute to
their year's bucket, keyed by `str(date.year)`. -/
def yearly_step (gk : GroupKey) (u : UnitKind) (acc : List (String × List (Val × ℚ)))
    (r : Record) : List (String × List (Val × ℚ)) :=
  match r.date with
  | .d t =>
    (match isNumV r.quantity with
     | none => acc
     | some q =>
       if sort_unit u = .Qty then bump2 acc (toString t.year) (groupVal r gk) q
       else
         match isNumV r.unit_price with
         | some p => bump2 acc (toString t.year) (groupVal r gk) (q * p)
         | none => acc)
  | _ => acc

/-- The yearly sort totals over all records. -/
def compute_yearly_sort_totals (gk : GroupKey) (u : UnitKind) (rows : List Record) :
    List (String × List (Val × ℚ)) :=
  rows.foldl (yearly_step gk u) []

/-- Look up one year's totals (`yearly_totals[year]`). -/
def yearTotalsFor (yt : List (String × List (Val × ℚ))) (y : String) : List (Val × ℚ) :=
  (((yt.find? (fun p => p.1 = y)).map (·.2)).getD [])

/-- Constructor rank used to totalize the value order across constructors. -/
def valRank : Val → Nat
  | .na => 0
  | .s _ => 1
  | .i _ => 2
  | .f _ => 3
  | .d _ => 4

/-- Same-constructor payload comparison of the value order. -/
def payloadLt (a b : Val) : Bool :=
  match a, b with
  | .s x, .s y => strLt x y
  | .i m, .i n => decide (m < n)
  | .f p, .f q => decide (p < q)
  | .d t, .d u => dtLt t u
  | _, _ => false

/-- Total order on values backing `sorted(set(...))` for group values: strings
compare by code point exactly as in Python; the cross-constructor cases (which
would raise a `TypeError` in Python and never occur in the pipeline, where
group values are normalized strings) are ordered by an arbitrary constructor
rank so the model stays total. -/
def valLt (a b : Val) : Bool :=
  if valRank a < valRank b then true
  else if valRank b < valRank a then false
  else payloadLt a b

/-- The alphabetical base list of a yearly group sheet:
`sorted(set(row[group_key] for row in combined_data if row[group_key]))`. -/
def all_groups (gk : GroupKey) (rows : List Record) : List Val :=
  pysort valLt (firstDedup (rows.filterMap
    (fun r => if pyTruthy (groupVal r gk) then some (groupVal r gk) else none)))

/-- The ordered group column of one year's table on a yearly group sheet:
`sorted(all_groups, key=lambda g: -year_totals.get(g, 0))`. -/
def yearly_groups (gk : GroupKey) (u : UnitKind) (rows : List Record) (y : String) : List Val :=
  let yt := yearTotalsFor (compute_yearly_sort_totals gk u rows) y
  pysort (fun a b => decide (totalOf yt b < totalOf yt a)) (all_groups gk rows)

/-- Excel column letter of a 1-based column index (`get_column_letter`),
written with structural fuel so it evaluates in the kernel; the fuel `n`
always suffices since the index shrinks every step. -/
def gclAux : Nat → Nat → List Char
  | _, 0 => []
  | 0, _ + 1 => []
  | fuel + 1, n + 1 => gclAux fuel (n / 26) ++ [Char.ofNat ('A'.toNat + n % 26)]

/-- Excel column letter of a 1-based column index. -/
def get_column_letter (n : Nat) : String := String.mk (gclAux n n)

/-- One bucket of the period hierarchy (`period_columns` entry): its label,
kind ('month' / 'quarter' / 'year' / 'grand'), member period keys, the month
column letters an aggregate sums (`sum_month_cols`, `none` for months), and
the column letter assigned at emission. -/
structure PeriodColumn where
  label : String
  ptype : String
  periods : List String
  sum_month_cols : Option (List String)
  address : String
deriving DecidableEq, Repr

/-- Builder state threaded through the `process_files` period-columns loop:
emitted buckets, the next free column, and the month-letter accumulators
(`all_month_letters`, `year_month_letters`). -/
structure BuildState where
  period_columns : List PeriodColumn
  current_col : Nat
  all_month_letters : List String
  year_month_letters : String → List String

/-- First month of quarter `q` (`q_start`). -/
def quarter_start (q : Nat) : Nat := (q - 1) * 3 + 1

/-- The `f'{year}-{m:02d}'` period key. -/
def fmtPeriod (year : String) (m : Nat) : String := year ++ "-" ++ pad2 m

/-- English month abbreviation, `strftime('%b')`. -/
def monthAbbrev : Nat → String
  | 1 => "Jan" | 2 => "Feb" | 3 => "Mar" | 4 => "Apr" | 5 => "May" | 6 => "Jun"
  | 7 => "Jul" | 8 => "Aug" | 9 => "Sep" | 10 => "Oct" | 11 => "Nov" | 12 => "Dec"
  | _ => ""

/-- Month bucket label, `datetime(int(year), m, 1).strftime('%b %Y')`. -/
def month_label (year : String) (m : Nat) : String :=
  monthAbbrev m ++ " " ++ toString (parseNatD year)

/-- Quarter bucket label `f'Q{q} {year}'` (the year echoed through `int`). -/
def quarter_label (q : Nat) (year : String) : String :=
  "Q" ++ toString q ++ " " ++ toString (parseNatD year)

/-- Year bucket label `f'Total {year}'`. -/
def year_label (year : String) : String := "Total " ++ toString (parseNatD year)

/-- Emit one Month bucket, extending the quarter's letter accumulator. -/
def emitMonth (year : String) (st : BuildState × List String) (m : Nat) :
    BuildState × List String :=
  let s := st.1
  let letter := get_column_letter s.current_col
  let b : PeriodColumn := ⟨month_label year m, "month", [fmtPeriod year m], none, letter⟩
  (⟨s.period_columns ++ [b], s.current_col + 1, s.all_month_letters ++ [letter],
    fun y => if y = year then s.year_month_letters y ++ [letter] else s.year_month_letters y⟩,
   st.2 ++ [letter])

/-- Emit one quarter: its present months (skipping the quarter entirely when it
has none) followed by the Quarter bucket summing exactly those months. -/
def emitQuarter (year : String) (months_present : List Nat) (s : BuildState) (q : Nat) :
    BuildState :=
  let q_months := months_present.filter (fun m => quarter_start q ≤ m && m ≤ quarter_start q + 2)
  if q_months.isEmpty then s
  else
    let p := q_months.foldl (emitMonth year) (s, [])
    let letter := get_column_letter p.1.current_col
    let b : PeriodColumn := ⟨quarter_label q year, "quarter", q_months.map (fmtPeriod year),
                             some p.2, letter⟩
    { p.1 with period_columns := p.1.period_columns ++ [b], current_col := p.1.current_col + 1 }

/-- Python slice `p[:n]`. -/
def strTake (s : String) (n : Nat) : String := String.mk (s.data.take n)

/-- Python slice `p[n:]`. -/
def strDrop (s : String) (n : Nat) : String := String.mk (s.data.drop n)

/-- The sorted present months of one year:
`sorted(int(p[5:]) for p in sorted_periods if p[:4] == year)`. -/
def months_of_year (sorted_periods : List String) (year : String) : List Nat :=
  pysort (fun a b => decide (a < b))
    (sorted_periods.filterMap
      (fun p => if strTake p 4 = year then some (parseNatD (strDrop p 5)) else none))

/-- Emit one year: its four quarters in order, then (when any month is present)
the Year bucket summing all of that year's month columns. -/
def emitYear (sorted_periods : List String) (s : BuildState) (year : String) : BuildState :=
  let months_present := months_of_year sorted_periods year
  let s1 := [1, 2, 3, 4].foldl (emitQuarter year months_present) s
  if months_present.isEmpty then s1
  else
    let letter := get_column_letter s1.current_col
    let b : PeriodColumn := ⟨year_label year, "year", months_present.map (fmtPeriod year),
                             some (s1.year_month_letters year), letter⟩
    { s1 with period_columns := s1.period_columns ++ [b], current_col := s1.current_col + 1 }

/-- The distinct years present, ascending: `sorted(set(p[:4] for p in
sorted_periods))`. -/
def years_of (sorted_periods : List String) : List String :=
  pysort strLt (firstDedup (sorted_periods.map (fun p => strTake p 4)))

/-- Section: the Period Hierarchy Builder of `process_files` (the
`period_columns` construction): per ascending year, per quarter 1-4, Month
buckets then the Quarter bucket; the Year bucket after each year; the Grand
bucket at the end when any period exists. Column letters are assigned
sequentially starting at column 2. -/
def buildPeriodColumns (sorted_periods : List String) : List PeriodColumn :=
  let s := (years_of sorted_periods).foldl (emitYear sorted_periods) ⟨[], 2, [], fun _ => []⟩
  if sorted_periods.isEmpty then s.period_columns
  else
    s.period_columns ++
      [⟨"Total", "grand", sorted_periods, some s.all_month_letters,
        get_column_letter s.current_col⟩]

/-- The Exchange Rate sheet data: one row per distinct period, rate left blank
for manual entry (`exchange_data_2d`). -/
def exchange_rows (sorted_periods : List String) : List (String × Option ℚ) :=
  sorted_periods.map (fun p => (p, none))

/-- The structured content handed to the external workbook writer; group and
summary sheets are formula emission over the same `period_columns`. -/
structure Workbook where
  sorted_periods : List String
  exchange : List (String × Option ℚ)
  period_columns : List PeriodColumn
deriving DecidableEq

/-- Build the workbook slice of the run (`combined` feeds the Sales sheet and
the group sheets, emitted towards the external writer). -/
def build_workbook (sorted_periods : List String) (combined : List Record) : Workbook :=
  let _ := combined
  ⟨sorted_periods, exchange_rows sorted_periods, buildPeriodColumns sorted_periods⟩

/-- Accumulator of the per-file loop of `process_files`. -/
structure ScanState where
  invalid_files : List String
  invalid_date_files : List String
  combined_data : List Record
deriving DecidableEq, Repr

/-- The body of the per-file loop of `process_files`, with the loop's mutable
lists as the accumulator: a file failing structure validation is recorded and
skipped before extraction; otherwise it is extracted and its dates validated;
surviving data is appended. `none` models an uncaught raise. -/
def scan_files_go (acc : ScanState) : List (String × DataFrame) → Option ScanState
  | [] => some acc
  | nf :: rest =>
    match validate_structure nf.2 with
    | none => none
    | some ok =>
      if ok = false then
        scan_files_go { acc with invalid_files := acc.invalid_files ++ [nf.1] } rest
      else
        match extract_data nf.2 with
        | none => none
        | some data =>
          if validate_dates data then
            scan_files_go { acc with combined_data := acc.combined_data ++ data } rest
          else
            scan_files_go { acc with invalid_date_files := acc.invalid_date_files ++ [nf.1] } rest

/-- The per-file loop of `process_files` started from empty accumulators. -/
def scan_files (files : List (String × DataFrame)) : Option ScanState :=
  scan_files_go ⟨[], [], []⟩ files

/-- Render a filename or coordinate list as the `<li>` items of the message. -/
def renderItems (fs : List String) : String :=
  String.join (fs.map (fun f => "<li>" ++ f ++ "</li>"))

/-- The structural-failure heading of the error message. -/
def structure_msg (fs : List String) : String :=
  if fs.isEmpty then ""
  else "<p>These files do not follow the required format:</p><ul>" ++ renderItems fs ++ "</ul>"

/-- The date-failure heading of the error message. -/
def date_msg (fs : List String) : String :=
  if fs.isEmpty then ""
  else "<p>These files have invalid date formatting:</p><ul>" ++ renderItems fs ++ "</ul>"

/-- The blank-cell warning message. -/
def warning_msg (cells : List String) : String :=
  "<p>Processing complete. Warning: Please check these empty cells in the output:</p><ul>" ++
  renderItems cells ++ "</ul>"

/-- The returned dictionary of `process_files`: optional output workbook, the
message, and the diagnostic type (`none` when the no-input reply carries no
type key). -/
structure RunResult where
  buffer : Option Workbook
  message : String
  rtype : Option String
deriving DecidableEq

/-- Section: Main Processing (`process_files`): empty input short-circuits; any
validation failure aborts with the error message and no output; otherwise the
data is processed, audited for blanks, and the workbook built, returning a
warning or success result. `none` models an uncaught raise. -/
def process_files (files : List (String × DataFrame)) : Option RunResult :=
  if files.isEmpty then some ⟨none, "No files uploaded.", none⟩
  else
    match scan_files files with
    | none => none
    | some sc =>
      if structure_msg sc.invalid_files ++ date_msg sc.invalid_date_files ≠ "" then
        some ⟨none, structure_msg sc.invalid_files ++ date_msg sc.invalid_date_files,
              some "error"⟩
      else
        match process_data sc.combined_data with
        | none => none
        | some pd =>
          if (check_blanks pd.2).isEmpty then
            some ⟨some (build_workbook pd.1 pd.2),
                  "Processing complete. All data processed successfully.", some "success"⟩
          else
            some ⟨some (build_workbook pd.1 pd.2), warning_msg (check_blanks pd.2),
                  some "warning"⟩

/-- A one-data-row sheet whose invoice cell (column D) holds the float 1230.0:
three header rows, then a row with a non-blank main column B. -/
def c4_frame : DataFrame :=
  ⟨[[], [], [],
    [Val.na, Val.s "x", Val.na, Val.f 1230, Val.na, Val.na, Val.na, Val.na, Val.na]]⟩

/-- A sheet with one row and 11 columns: the control column K exists but the
sheet has fewer than 6 rows. -/
def c5_frame : DataFrame := ⟨[List.replicate 11 (Val.s "x")]⟩

/-- A well-formed sheet: 6 rows, 11 columns, control column K blank. -/
def c5_frame_ok : DataFrame := ⟨List.replicate 6 (List.replicate 11 Val.na)⟩

/-- A valid one-record input for the exchange-rate witness. -/
def c10_rec : Record :=
  ⟨Val.s "Jkt", Val.d ⟨2024, 1, 5⟩, Val.s "A1", Val.s "Acme", Val.s "T", Val.s "Tea",
   Val.f 2, Val.f 3⟩

/-- The processed form of `c10_rec`. -/
def c10_rec_p : Record :=
  ⟨Val.s "Jakarta", Val.d ⟨2024, 1, 5⟩, Val.s "A1", Val.s "Acme", Val.s "T", Val.s "Tea",
   Val.f 2, Val.f 3⟩

/-- A record with quantity zero and otherwise valid fields. -/
def c3_rec : Record :=
  ⟨Val.s "Jkt", Val.d ⟨2024, 1, 5⟩, Val.s "A1", Val.s "Acme", Val.s "T", Val.s "Tea",
   Val.f 0, Val.f 3⟩

/-- The processed form of `c3_rec`: the zero quantity has become `''`. -/
def c3_rec_p : Record :=
  ⟨Val.s "Jakarta", Val.d ⟨2024, 1, 5⟩, Val.s "A1", Val.s "Acme", Val.s "T", Val.s "Tea",
   Val.s "", Val.f 3⟩

/-- Does a file fail structural validation (`validate_structure` returns
False)? Vocabulary for describing the scan loop's outcome. -/
def struct_fails (nf : String × DataFrame) : Bool :=
  decide (validate_structure nf.2 = some false)

/-- Does a file pass structural validation and then fail date validation? -/
def date_fails (nf : String × DataFrame) : Bool :=
  decide (validate_structure nf.2 = some true) &&
  (match extract_data nf.2 with
   | some data => !validate_dates data
   | none => false)

/-- A structurally invalid sheet: 6 rows, 11 columns, control column K filled
in rows 4-6. -/
def c2_bad_frame : DataFrame :=
  ⟨[List.replicate 11 Val.na, List.replicate 11 Val.na, List.replicate 11 Val.na,
    List.replicate 10 Val.na ++ [Val.s "X"], List.replicate 10 Val.na ++ [Val.s "X"],
    List.replicate 10 Val.na ++ [Val.s "X"]]⟩

/-- A structurally valid sheet whose one data row carries date text "abc",
which no date parser accepts: the file fails date validation. -/
def c8_date_frame : DataFrame :=
  ⟨[List.replicate 11 Val.na, List.replicate 11 Val.na, List.replicate 11 Val.na,
    [Val.na, Val.s "v", Val.s "abc", Val.na, Val.na, Val.na, Val.na, Val.na, Val.na,
     Val.na, Val.na],
    List.replicate 11 Val.na, List.replicate 11 Val.na]⟩

/-- Three records over one year: group "B" first appears in a non-contributing
record (blank quantity), then "A" and "B" each contribute quantity 1, so both
sort totals are equal. -/
def c6_rows : List Record :=
  [⟨Val.s "x", Val.d ⟨2024, 1, 5⟩, Val.s "i", Val.s "B", Val.s "t", Val.s "p", Val.s "",
    Val.f 1⟩,
   ⟨Val.s "x", Val.d ⟨2024, 1, 6⟩, Val.s "i", Val.s "A", Val.s "t", Val.s "p", Val.f 1,
    Val.f 1⟩,
   ⟨Val.s "x", Val.d ⟨2024, 1, 7⟩, Val.s "i", Val.s "B", Val.s "t", Val.s "p", Val.f 1,
    Val.f 1⟩]

/-! Spec-side rendering of the Period Hierarchy (for claim C1): the layout the
specification describes, built structurally per year, quarter, month.
`buildPeriodColumns` is proved equal to it. -/

/-- Does month `m` fall in quarter `q` (the builder's range test)? -/
def inQuarter (q m : Nat) : Bool :=
  quarter_start q ≤ m && m ≤ quarter_start q + 2

/-- The column letters of `k` consecutive columns starting at column `c`. -/
def monthLetters : Nat → Nat → List String
  | _, 0 => []
  | c, k + 1 => get_column_letter c :: monthLetters (c + 1) k

/-- The Month buckets of the listed months, one per month in month order, each
member_periods the singleton of its PeriodKey, at consecutive columns. -/
def monthBucketsFor (year : String) : Nat → List Nat → List PeriodColumn
  | _, [] => []
  | c, m :: ms =>
    ⟨month_label year m, "month", [fmtPeriod year m], none, get_column_letter c⟩ ::
    monthBucketsFor year (c + 1) ms

/-- Columns consumed by the given quarters of a year: each quarter with at
least one present month takes its month columns plus one quarter column. -/
def quarterSpan (ms : List Nat) : List Nat → Nat
  | [] => 0
  | q :: qs =>
    (if (ms.filter (inQuarter q)).isEmpty then 0
     else (ms.filter (inQuarter q)).length + 1) +
    quarterSpan ms qs

/-- The month-column letters emitted by the given quarters of a year, in
order. -/
def quarterMonthLetters (ms : List Nat) : Nat → List Nat → List String
  | _, [] => []
  | c, q :: qs =>
    if (ms.filter (inQuarter q)).isEmpty then quarterMonthLetters ms c qs
    else
      monthLetters c (ms.filter (inQuarter q)).length ++
      quarterMonthLetters ms (c + (ms.filter (inQuarter q)).length + 1) qs

/-- The spec's per-quarter layout: for each listed quarter with at least one
present month, that quarter's Month buckets in month order followed by exactly
one Quarter bucket whose children are exactly those Month buckets' addresses in
order; a quarter lacking present months emits no bucket at all. -/
def quarterColumnsSpec (year : String) : Nat → List Nat → List Nat → List PeriodColumn
  | _, _, [] => []
  | c, ms, q :: qs =>
    if (ms.filter (inQuarter q)).isEmpty then quarterColumnsSpec year c ms qs
    else
      monthBucketsFor year c (ms.filter (inQuarter q)) ++
      ⟨quarter_label q year, "quarter", (ms.filter (inQuarter q)).map (fmtPeriod year),
        some ((monthBucketsFor year c (ms.filter (inQuarter q))).map (fun b => b.address)),
        get_column_letter (c + (ms.filter (inQuarter q)).length)⟩ ::
      quarterColumnsSpec year (c + (ms.filter (inQuarter q)).length + 1) ms qs

/-- The spec's per-year layout: the four quarters in order, then exactly one
Year bucket whose children are all of that year's Month bucket addresses in
chronological order. -/
def yearColumnsSpec (year : String) (c : Nat) (ms : List Nat) : List PeriodColumn :=
  quarterColumnsSpec year c ms [1, 2, 3, 4] ++
  [⟨year_label year, "year", ms.map (fmtPeriod year),
     some (((quarterColumnsSpec year c ms [1, 2, 3, 4]).filter
       (fun b => b.ptype = "month")).map (fun b => b.address)),
     get_column_letter (c + quarterSpan ms [1, 2, 3, 4])⟩]

/-- Columns consumed by one year: its quarters plus the Year column. -/
def yearSpan (ms : List Nat) : Nat := quarterSpan ms [1, 2, 3, 4] + 1

/-- The spec's layout for the distinct years in ascending order. -/
def yearsColumnsSpec : Nat → List (String × List Nat) → List PeriodColumn
  | _, [] => []
  | c, ym :: rest =>
    yearColumnsSpec ym.1 c ym.2 ++ yearsColumnsSpec (c + yearSpan ym.2) rest

/-- Columns consumed by all years. -/
def yearsSpan : List (String × List Nat) → Nat
  | [] => 0
  | ym :: rest => yearSpan ym.2 + yearsSpan rest

/-- The month-column letters emitted by all years, in order. -/
def yearsMonthLetters : Nat → List (String × List Nat) → List String
  | _, [] => []
  | c, ym :: rest =>
    quarterMonthLetters ym.2 c [1, 2, 3, 4] ++ yearsMonthLetters (c + yearSpan ym.2) rest

/-- The spec's full period hierarchy for a dataset whose present months are
grouped by year: every year's layout starting at column 2, then exactly one
Grand bucket whose children are every Month bucket address of the dataset in
chronological order. -/
def specPeriodColumns (yms : List (String × List Nat)) : List PeriodColumn :=
  yearsColumnsSpec 2 yms ++
  [⟨"Total", "grand", yms.flatMap (fun ym => ym.2.map (fmtPeriod ym.1)),
     some (((yearsColumnsSpec 2 yms).filter (fun b => b.ptype = "month")).map
       (fun b => b.address)),
     get_column_letter (2 + yearsSpan yms)⟩]

/-! Theorems. -/


/-- Claim C4 (code_bug): the extractor is supposed to strip exactly a trailing
".0" from a float-sourced invoice number (so float 1230.0 gives "1230"), but
`str(val).rstrip('.0')` removes every trailing '.' or '0' character, so the
float 1230.0 actually extracts as "123", losing the final digit of the
integer part. -/
theorem claim_C4_invoice_rstrip_bug :
    extract_data c4_frame =
      some [{ area := Val.s "x", date := Val.s "", invoice_no := Val.s "123",
              customer_name := Val.s "", product_type := Val.s "",
              product_name := Val.s "", quantity := Val.s "", unit_price := Val.s "" }] ∧
    ("123" : String) ≠ "1230" := by
  constructor
  · rfl
  · decide


/-- Claim C5 counterexample: the Structural Validator does not "return a
boolean and never raise" on every sheet — on a sheet with fewer than 6 rows
whose width reaches the control column, `df.iloc` raises (modelled as
`none`). -/
theorem claim_C5_counterexample :
    validate_structure c5_frame = none ∧ c5_frame.rows.length < 6 ∧ 10 < dfWidth c5_frame := by
  refine ⟨rfl, by decide, by decide⟩

/-- Claim C5 (amended): the Structural Validator returns `true` whenever the
control column lies beyond the sheet width; and on any sheet of at least 6
rows it returns (without raising) exactly the conjunction "rows 4, 5 and 6 of
the control column are each empty or whitespace-only". Sheets with fewer than
6 rows whose width reaches the control column make it raise. -/
theorem claim_C5_validator_amended (df : DataFrame) :
    (dfWidth df ≤ 10 → validate_structure df = some true) ∧
    (10 < dfWidth df → 6 ≤ df.rows.length →
      ∃ r3 r4 r5, df.rows[3]? = some r3 ∧ df.rows[4]? = some r4 ∧
        df.rows[5]? = some r5 ∧
        validate_structure df =
          some (blankCell (r3.getD 10 Val.na) && blankCell (r4.getD 10 Val.na) &&
                blankCell (r5.getD 10 Val.na))) := by
  have hk : col_to_index 'K' = 10 := rfl
  constructor
  · intro hw
    unfold validate_structure
    rw [hk]
    simp [hw]
  · intro hw hh
    have h3 : 3 < df.rows.length := by omega
    have h4 : 4 < df.rows.length := by omega
    have h5 : 5 < df.rows.length := by omega
    have hnw : ¬ (dfWidth df ≤ 10) := by omega
    refine ⟨df.rows[3], df.rows[4], df.rows[5],
      List.getElem?_eq_getElem h3, List.getElem?_eq_getElem h4, List.getElem?_eq_getElem h5, ?_⟩
    unfold validate_structure iloc
    rw [hk]
    simp [hnw, List.getElem?_eq_getElem, h3, h4, h5, hw]


/-- Witness for the amended claim C5 at a concrete 6-row sheet. -/
theorem claim_C5_validator_amended_witness :
    10 < dfWidth c5_frame_ok ∧ 6 ≤ c5_frame_ok.rows.length ∧
    ∃ r3 r4 r5, c5_frame_ok.rows[3]? = some r3 ∧ c5_frame_ok.rows[4]? = some r4 ∧
      c5_frame_ok.rows[5]? = some r5 ∧
      validate_structure c5_frame_ok =
        some (blankCell (r3.getD 10 Val.na) && blankCell (r4.getD 10 Val.na) &&
              blankCell (r5.getD 10 Val.na)) :=
  ⟨by decide, by decide,
   (claim_C5_validator_amended c5_frame_ok).2 (by decide) (by decide)⟩

/-! Lemmas about the stable sort and the deduplication helpers. -/

theorem insertLt_perm {α : Type} (lt : α → α → Bool) (x : α) (l : List α) :
    (insertLt lt x l).Perm (x :: l) := by
  induction l with
  | nil => exact List.Perm.refl _
  | cons a t ih =>
    cases h : lt a x with
    | true =>
      simp only [insertLt, h, if_true]
      exact ((ih.cons a).trans (List.Perm.swap x a t))
    | false =>
      simp only [insertLt, h]
      exact List.Perm.refl _

theorem pysort_perm {α : Type} (lt : α → α → Bool) (l : List α) :
    (pysort lt l).Perm l := by
  induction l with
  | nil => exact List.Perm.refl _
  | cons x t ih => exact (insertLt_perm lt x (pysort lt t)).trans (ih.cons x)

theorem insertLt_eq_takeWhile {α : Type} (lt : α → α → Bool) (x : α) (l : List α) :
    insertLt lt x l = l.takeWhile (fun a => lt a x) ++ x :: l.dropWhile (fun a => lt a x) := by
  induction l with
  | nil => rfl
  | cons a t ih =>
    by_cases h : lt a x = true
    · simp [insertLt, List.takeWhile, List.dropWhile, h, ih]
    · simp [insertLt, List.takeWhile, List.dropWhile, h]

theorem sublist_insertLt {α : Type} (lt : α → α → Bool) (x : α) {l m : List α}
    (h : m.Sublist l) : m.Sublist (insertLt lt x l) := by
  rw [insertLt_eq_takeWhile]
  have h1 : m.Sublist (l.takeWhile (fun a => lt a x) ++ l.dropWhile (fun a => lt a x)) := by
    rw [List.takeWhile_append_dropWhile]
    exact h
  exact h1.trans (List.Sublist.append_left ((List.Sublist.refl _).cons x) _)

theorem pair_sublist_insertLt {α : Type} (lt : α → α → Bool) {x y : α} {l : List α}
    (hy : y ∈ l) (hxy : lt y x = false) : [x, y].Sublist (insertLt lt x l) := by
  rw [insertLt_eq_takeWhile]
  have hysplit : y ∈ l.takeWhile (fun a => lt a x) ++ l.dropWhile (fun a => lt a x) := by
    rw [List.takeWhile_append_dropWhile]
    exact hy
  have hyd : y ∈ l.dropWhile (fun a => lt a x) := by
    rcases List.mem_append.1 hysplit with h | h
    · have hc : lt y x = true := by simpa using List.mem_takeWhile_imp h
      rw [hxy] at hc
      exact absurd hc (by simp)
    · exact h
  have h1 : [x, y].Sublist (x :: l.dropWhile (fun a => lt a x)) :=
    (List.singleton_sublist.2 hyd).cons₂ x
  exact List.sublist_append_of_sublist_right h1

theorem pysort_stable {α : Type} (lt : α → α → Bool) {x y : α} :
    ∀ {l : List α}, [x, y].Sublist l → lt y x = false → [x, y].Sublist (pysort lt l) := by
  intro l
  induction l with
  | nil => intro h _; cases h
  | cons a t ih =>
    intro h hxy
    cases h with
    | cons b h2 => exact sublist_insertLt lt a (ih h2 hxy)
    | cons₂ b h2 =>
      have hy : y ∈ pysort lt t := by
        rw [(pysort_perm lt t).mem_iff]
        exact List.singleton_sublist.1 h2
      exact pair_sublist_insertLt lt hy hxy

theorem pairwise_insertLt {α : Type} (lt : α → α → Bool)
    (hasym : ∀ a b, lt a b = true → lt b a = false)
    (hnt : ∀ a b c, lt a b = false → lt b c = false → lt a c = false)
    (x : α) {l : List α} (hl : l.Pairwise (fun u v => lt v u = false)) :
    (insertLt lt x l).Pairwise (fun u v => lt v u = false) := by
  induction l with
  | nil => simp [insertLt]
  | cons a t ih =>
    rcases List.pairwise_cons.1 hl with ⟨ha, ht⟩
    cases h : lt a x with
    | true =>
      simp only [insertLt, h, if_true]
      refine List.pairwise_cons.2 ⟨?_, ih ht⟩
      intro b hb
      rcases List.mem_cons.1 (((insertLt_perm lt x t).mem_iff).1 hb) with rfl | hbt
      · exact hasym a b h
      · exact ha b hbt
    | false =>
      simp only [insertLt, h]
      refine List.pairwise_cons.2 ⟨?_, hl⟩
      intro b hb
      rcases List.mem_cons.1 hb with rfl | hbt
      · exact h
      · exact hnt b a x (ha b hbt) h

theorem pairwise_pysort {α : Type} (lt : α → α → Bool)
    (hasym : ∀ a b, lt a b = true → lt b a = false)
    (hnt : ∀ a b c, lt a b = false → lt b c = false → lt a c = false)
    (l : List α) : (pysort lt l).Pairwise (fun u v => lt v u = false) := by
  induction l with
  | nil => simp [pysort]
  | cons x t ih => exact pairwise_insertLt lt hasym hnt x ih

theorem pysort_of_pairwise {α : Type} (lt : α → α → Bool) :
    ∀ {l : List α}, l.Pairwise (fun u v => lt v u = false) → pysort lt l = l := by
  intro l
  induction l with
  | nil => intro _; rfl
  | cons x t ih =>
    intro h
    rcases List.pairwise_cons.1 h with ⟨hx, ht⟩
    rw [pysort, ih ht]
    cases t with
    | nil => rfl
    | cons a t2 =>
      have ha : lt a x = false := hx a (List.mem_cons_self a t2)
      simp [insertLt, ha]

theorem mem_firstDedupAux {α : Type} [DecidableEq α] (a : α) :
    ∀ (l seen : List α), a ∈ firstDedupAux seen l ↔ a ∈ l ∧ a ∉ seen := by
  intro l
  induction l with
  | nil => intro seen; simp [firstDedupAux]
  | cons x t ih =>
    intro seen
    by_cases hx : x ∈ seen
    · rw [firstDedupAux, if_pos hx, ih seen]
      constructor
      · rintro ⟨h1, h2⟩
        exact ⟨List.mem_cons_of_mem x h1, h2⟩
      · rintro ⟨h1, h2⟩
        rcases List.mem_cons.1 h1 with rfl | h1
        · exact absurd hx h2
        · exact ⟨h1, h2⟩
    · rw [firstDedupAux, if_neg hx]
      constructor
      · intro hmem
        rcases List.mem_cons.1 hmem with rfl | hmem
        · exact ⟨List.mem_cons_self a t, hx⟩
        · rcases (ih (x :: seen)).1 hmem with ⟨h1, h2⟩
          exact ⟨List.mem_cons_of_mem x h1, fun hc => h2 (List.mem_cons_of_mem x hc)⟩
      · rintro ⟨h1, h2⟩
        by_cases hax : a = x
        · subst hax
          exact List.mem_cons_self a _
        · rcases List.mem_cons.1 h1 with rfl | h1
          · exact absurd rfl hax
          · refine List.mem_cons_of_mem x ((ih (x :: seen)).2 ⟨h1, ?_⟩)
            intro hc
            rcases List.mem_cons.1 hc with h | h
            · exact hax h
            · exact h2 h

theorem nodup_firstDedupAux {α : Type} [DecidableEq α] :
    ∀ (l seen : List α), (firstDedupAux seen l).Nodup := by
  intro l
  induction l with
  | nil => intro seen; simp [firstDedupAux]
  | cons x t ih =>
    intro seen
    by_cases hx : x ∈ seen
    · rw [firstDedupAux, if_pos hx]
      exact ih seen
    · rw [firstDedupAux, if_neg hx]
      refine List.nodup_cons.2 ⟨?_, ih (x :: seen)⟩
      intro hc
      exact ((mem_firstDedupAux x t (x :: seen)).1 hc).2 (List.mem_cons_self x seen)

theorem mem_firstDedup {α : Type} [DecidableEq α] (a : α) (l : List α) :
    a ∈ firstDedup l ↔ a ∈ l := by
  rw [firstDedup, mem_firstDedupAux a l []]
  simp

theorem nodup_firstDedup {α : Type} [DecidableEq α] (l : List α) :
    (firstDedup l).Nodup := nodup_firstDedupAux l []

/-! Lemmas about the lexicographic string order. -/

theorem lexLt_asymm : ∀ a b : List Char, lexLt a b = true → lexLt b a = false := by
  intro a
  induction a with
  | nil =>
    intro b h
    cases b with
    | nil => simp [lexLt] at h
    | cons c cs => rfl
  | cons c cs ih =>
    intro b h
    cases b with
    | nil => simp [lexLt] at h
    | cons d ds =>
      by_cases h1 : c < d
      · have h2 : ¬ d < c := lt_asymm h1
        simp [lexLt, h1, h2]
      · by_cases h2 : d < c
        · simp [lexLt, h1, h2] at h
        · have hcd : c = d := le_antisymm (not_lt.mp h2) (not_lt.mp h1)
          subst hcd
          simp only [lexLt, if_neg h1, lt_irrefl, if_false] at h ⊢
          exact ih ds h

theorem lexLt_negtrans :
    ∀ a b c : List Char, lexLt a b = false → lexLt b c = false → lexLt a c = false := by
  intro a
  induction a with
  | nil =>
    intro b c hab hbc
    cases b with
    | nil =>
      cases c with
      | nil => rfl
      | cons e es => simp [lexLt] at hbc
    | cons d ds => simp [lexLt] at hab
  | cons x xs ih =>
    intro b c hab hbc
    cases b with
    | nil =>
      cases c with
      | nil => rfl
      | cons e es => simp [lexLt] at hbc
    | cons d ds =>
      cases c with
      | nil => rfl
      | cons e es =>
        by_cases hxd : x < d
        · simp [lexLt, hxd] at hab
        · by_cases hde : d < e
          · simp [lexLt, hde] at hbc
          · by_cases hdx : d < x
            · -- d < x, and d ≥ e: so e ≤ d < x hence ¬ x < e and ¬ x = e needs care
              have hed : e ≤ d := not_lt.mp hde
              have hex : e < x := lt_of_le_of_lt hed hdx
              have hxe : ¬ x < e := lt_asymm hex
              have hne : ¬ x = e := fun h => absurd (h ▸ hex) (lt_irrefl x)
              have hexlt : e < x := hex
              simp only [lexLt, if_neg hxe]
              rw [if_pos hexlt]
            · have hxd' : x = d := le_antisymm (not_lt.mp hdx) (not_lt.mp hxd)
              subst hxd'
              by_cases hxe : x < e
              · simp [lexLt, hxe, lt_irrefl] at hbc
              · by_cases hex : e < x
                · simp only [lexLt, if_neg hxe]
                  rw [if_pos hex]
                · have : x = e := le_antisymm (not_lt.mp hex) (not_lt.mp hxe)
                  subst this
                  simp only [lexLt, lt_irrefl, if_false] at hab hbc ⊢
                  exact ih ds es hab hbc

theorem lexLt_total_eq :
    ∀ a b : List Char, lexLt a b = false → lexLt b a = false → a = b := by
  intro a
  induction a with
  | nil =>
    intro b hab hba
    cases b with
    | nil => rfl
    | cons d ds => simp [lexLt] at hab
  | cons c cs ih =>
    intro b hab hba
    cases b with
    | nil => simp [lexLt] at hba
    | cons d ds =>
      by_cases h1 : c < d
      · simp [lexLt, h1] at hab
      · by_cases h2 : d < c
        · simp [lexLt, h2] at hba
        · have hcd : c = d := le_antisymm (not_lt.mp h2) (not_lt.mp h1)
          subst hcd
          simp only [lexLt, lt_irrefl, if_false] at hab hba
          rw [ih ds hab hba]

theorem strLt_asymm (a b : String) : strLt a b = true → strLt b a = false :=
  lexLt_asymm a.data b.data

theorem strLt_negtrans (a b c : String) :
    strLt a b = false → strLt b c = false → strLt a c = false :=
  lexLt_negtrans a.data b.data c.data

theorem strLt_total_eq (a b : String) : strLt a b = false → strLt b a = false → a = b :=
  fun h1 h2 => String.ext (lexLt_total_eq a.data b.data h1 h2)

/-! Lemmas about `process_row` and `mapM`. -/

theorem mapM_mem {α β : Type} {f : α → Option β} :
    ∀ {l : List α} {res : List β}, l.mapM f = some res → ∀ {a : α}, a ∈ l →
      ∃ b ∈ res, f a = some b := by
  intro l
  induction l with
  | nil => intro res h a ha; cases ha
  | cons x t ih =>
    intro res h a ha
    rw [List.mapM_cons] at h
    rcases Option.bind_eq_some.1 h with ⟨y, hy, h2⟩
    rcases Option.bind_eq_some.1 h2 with ⟨ys, hys, h3⟩
    have hres : y :: ys = res := Option.some.inj h3
    rcases List.mem_cons.1 ha with rfl | hat
    · exact ⟨y, by rw [← hres]; exact List.mem_cons_self y ys, hy⟩
    · rcases ih hys hat with ⟨b, hb, hfb⟩
      exact ⟨b, by rw [← hres]; exact List.mem_cons_of_mem y hb, hfb⟩

theorem process_row_some {r : Record} {a : String}
    (ha : process_area r.area area_replacements = some a) :
    process_row r = some
      { area := .s a,
        date := r.date,
        invoice_no := .s (if pyTruthy r.invoice_no then pyStrVal r.invoice_no else ""),
        customer_name := .s (proper_case_val r.customer_name preserve_upper_customer),
        product_type := .s (if pyTruthy r.product_type then pyStrVal r.product_type else ""),
        product_name := .s (proper_case_val r.product_name preserve_upper_product),
        quantity := if pyTruthy r.quantity then r.quantity else .s "",
        unit_price := if pyTruthy r.unit_price then r.unit_price else .s "" } := by
  unfold process_row
  rw [ha]
  rfl

theorem process_row_shape {r r' : Record} (h : process_row r = some r') :
    r'.date = r.date ∧
    r'.quantity = (if pyTruthy r.quantity then r.quantity else Val.s "") := by
  unfold process_row at h
  cases ha : process_area r.area area_replacements with
  | none => rw [ha] at h; cases h
  | some a =>
    rw [ha] at h
    have := Option.some.inj h
    rw [← this]
    exact ⟨rfl, rfl⟩

/-- Claim C10: every processed record with a datetime date has its "YYYY-MM"
period key appearing exactly once in the Period column of the Exchange Rate
sheet, and that column is strictly ascending in the string (period) order —
hence each Sales-sheet exchange-rate lookup key built from a valid date finds
exactly one matching row. -/
theorem claim_C10_exchange_rate_rows (rows : List Record) (ps : List String)
    (combined : List Record) (h : process_data rows = some (ps, combined))
    (r : Record) (hr : r ∈ rows) (t : Datetime) (hd : r.date = Val.d t) :
    (((exchange_rows ps).map Prod.fst).count (fmtYM t) = 1) ∧
    ((exchange_rows ps).map Prod.fst).Pairwise (fun a b => strLt a b = true) := by
  have hcol : (exchange_rows ps).map Prod.fst = ps := by
    simp only [exchange_rows, List.map_map]
    exact List.map_id'' (fun p => rfl) ps
  unfold process_data at h
  cases hm : rows.mapM process_row with
  | none => rw [hm] at h; cases h
  | some processed =>
    rw [hm] at h
    have hpair := Option.some.inj h
    have hps : ps = pysort strLt (firstDedup (collectPeriods processed)) :=
      (congrArg Prod.fst hpair).symm
    rcases mapM_mem hm hr with ⟨r2, hr2, hpr⟩
    have hdate2 : r2.date = Val.d t := by
      rw [(process_row_shape hpr).1, hd]
    have hper : fmtYM t ∈ collectPeriods processed := by
      refine List.mem_filterMap.2 ⟨r2, hr2, ?_⟩
      rw [hdate2]
    have hmemfd : fmtYM t ∈ firstDedup (collectPeriods processed) :=
      (mem_firstDedup _ _).2 hper
    have hnd : (firstDedup (collectPeriods processed)).Nodup := nodup_firstDedup _
    have hperm := pysort_perm strLt (firstDedup (collectPeriods processed))
    have hndps : ps.Nodup := by
      rw [hps]
      exact hperm.symm.nodup hnd
    have hmemps : fmtYM t ∈ ps := by
      rw [hps]
      exact hperm.mem_iff.2 hmemfd
    constructor
    · rw [hcol]
      exact List.count_eq_one_of_mem hndps hmemps
    · rw [hcol, hps]
      have hpw := pairwise_pysort strLt strLt_asymm strLt_negtrans
        (firstDedup (collectPeriods processed))
      have hndsorted : (pysort strLt (firstDedup (collectPeriods processed))).Nodup :=
        hperm.symm.nodup hnd
      refine (hpw.and hndsorted).imp ?_
      rintro a b ⟨h1, h2⟩
      cases hab : strLt a b with
      | true => rfl
      | false => exact absurd (strLt_total_eq a b hab h1) h2



/-- Witness for claim C10 at a concrete one-record dataset. -/
theorem claim_C10_exchange_rate_rows_witness :
    process_data [c10_rec] = some (["2024-01"], [c10_rec_p]) ∧
    c10_rec ∈ [c10_rec] ∧ c10_rec.date = Val.d ⟨2024, 1, 5⟩ ∧
    ((((exchange_rows ["2024-01"]).map Prod.fst).count (fmtYM ⟨2024, 1, 5⟩) = 1) ∧
     ((exchange_rows ["2024-01"]).map Prod.fst).Pairwise (fun a b => strLt a b = true)) :=
  ⟨by decide, List.mem_cons_self _ _, rfl,
   claim_C10_exchange_rate_rows [c10_rec] ["2024-01"] [c10_rec_p] (by decide)
     c10_rec (List.mem_cons_self _ _) ⟨2024, 1, 5⟩ rfl⟩

theorem blanksFrom_eq (rows : List Record) : ∀ i : Nat,
    blanksFrom (i + 1) rows = (rows.enumFrom i).flatMap (fun p =>
      key_to_col.filterMap (fun kc =>
        if pyTruthy (getField p.2 kc.1) then none else some (kc.2 ++ toString (p.1 + 2)))) := by
  induction rows with
  | nil => intro i; rfl
  | cons r t ih =>
    intro i
    rw [blanksFrom, List.enumFrom_cons, List.flatMap_cons, ih (i + 1)]

/-- Claim C3: the Blank-Field Auditor emits, for record index `k` (0-based; the
code enumerates 1-based and writes `i+1`, the same row number) and each of the
8 required fields whose value is falsy, the coordinate `{column}{k+2}`, in
record-then-field order; a quantity of 0 is coerced to `''` by processing and
hence reported at its H coordinate; and the warning list never blocks output:
a run that returns with type "warning" carries the workbook. -/
theorem claim_C3_blank_auditor :
    (∀ rows : List Record,
      check_blanks rows = rows.enum.flatMap (fun p =>
        key_to_col.filterMap (fun kc =>
          if pyTruthy (getField p.2 kc.1) then none
          else some (kc.2 ++ toString (p.1 + 2))))) ∧
    (∀ r r' : Record, process_row r = some r' → r.quantity = Val.f 0 →
      r'.quantity = Val.s "") ∧
    (∀ (rows : List Record) (k : Nat) (hk : k < rows.length),
      pyTruthy (getField (rows.get ⟨k, hk⟩) FieldKey.quantity) = false →
      ("H" ++ toString (k + 2)) ∈ check_blanks rows) ∧
    (∀ (files : List (String × DataFrame)) (res : RunResult),
      process_files files = some res → res.rtype = some "warning" → res.buffer.isSome) := by
  have hformula : ∀ rows : List Record,
      check_blanks rows = rows.enum.flatMap (fun p =>
        key_to_col.filterMap (fun kc =>
          if pyTruthy (getField p.2 kc.1) then none
          else some (kc.2 ++ toString (p.1 + 2)))) := by
    intro rows
    exact blanksFrom_eq rows 0
  refine ⟨hformula, ?_, ?_, ?_⟩
  · intro r r' h hq
    rw [(process_row_shape h).2, hq]
    decide
  · intro rows k hk hfalsy
    rw [hformula]
    have hkk : k < rows.enum.length := by
      rw [List.enum_length]; exact hk
    refine List.mem_flatMap.2 ⟨(k, rows.get ⟨k, hk⟩), ?_, ?_⟩
    · have h1 : rows.enum[k] = (k, rows[k]) := List.getElem_enum rows k hkk
      have h2 : rows.enum[k] ∈ rows.enum := List.getElem_mem hkk
      rw [h1] at h2
      exact h2
    · refine List.mem_filterMap.2 ⟨(FieldKey.quantity, "H"), by decide, ?_⟩
      rw [hfalsy]
      rfl
  · intro files res h hw
    unfold process_files at h
    split at h
    · have := Option.some.inj h
      rw [← this] at hw
      cases hw
    · split at h
      · cases h
      · split at h
        · have := Option.some.inj h
          rw [← this] at hw
          exact absurd (Option.some.inj hw) (by decide)
        · split at h
          · cases h
          · split at h
            · have := Option.some.inj h
              rw [← this] at hw
              exact absurd (Option.some.inj hw) (by decide)
            · have := Option.some.inj h
              rw [← this]
              rfl



/-- Witness for claim C3: a concrete record with quantity 0 is coerced to `''`
and reported at coordinate H2 (first data row). -/
theorem claim_C3_blank_auditor_witness :
    process_row c3_rec = some c3_rec_p ∧ c3_rec.quantity = Val.f 0 ∧
    c3_rec_p.quantity = Val.s "" ∧
    ("H" ++ toString (0 + 2)) ∈ check_blanks [c3_rec_p] :=
  ⟨by decide, rfl,
   claim_C3_blank_auditor.2.1 c3_rec c3_rec_p (by decide) rfl,
   claim_C3_blank_auditor.2.2.1 [c3_rec_p] 0 (by decide) (by decide)⟩

theorem scan_files_go_spec : ∀ (files : List (String × DataFrame)) (acc sc : ScanState),
    scan_files_go acc files = some sc →
    sc.invalid_files = acc.invalid_files ++ (files.filter struct_fails).map Prod.fst ∧
    sc.invalid_date_files =
      acc.invalid_date_files ++ (files.filter date_fails).map Prod.fst := by
  intro files
  induction files with
  | nil =>
    intro acc sc h
    have := Option.some.inj h
    rw [← this]
    simp
  | cons nf rest ih =>
    intro acc sc h
    cases hv : validate_structure nf.2 with
    | none =>
      simp only [scan_files_go, hv] at h
      exact Option.noConfusion h
    | some ok =>
      cases ok with
      | false =>
        simp only [scan_files_go, hv] at h
        have h2 := ih _ _ h
        have hs : struct_fails nf = true := by
          simp [struct_fails, hv]
        have hd : date_fails nf = false := by
          simp [date_fails, hv]
        rw [List.filter_cons_of_pos hs, List.filter_cons_of_neg (by simp [hd])]
        refine ⟨?_, ?_⟩
        · rw [h2.1]
          simp
        · rw [h2.2]
      | true =>
        cases he : extract_data nf.2 with
        | none =>
          simp only [scan_files_go, hv, he] at h
          rw [if_neg (by decide)] at h
          exact Option.noConfusion h
        | some data =>
          have hs : struct_fails nf = false := by
            simp [struct_fails, hv]
          cases hdv : validate_dates data with
          | true =>
            simp only [scan_files_go, hv, he, hdv] at h
            have h2 := ih _ _ h
            have hd : date_fails nf = false := by
              simp [date_fails, hv, he, hdv]
            rw [List.filter_cons_of_neg (by simp [hs]), List.filter_cons_of_neg (by simp [hd])]
            exact ⟨h2.1, h2.2⟩
          | false =>
            simp only [scan_files_go, hv, he, hdv] at h
            have h2 := ih _ _ h
            have hd : date_fails nf = true := by
              simp [date_fails, hv, he, hdv]
            rw [List.filter_cons_of_neg (by simp [hs]), List.filter_cons_of_pos hd]
            refine ⟨h2.1, ?_⟩
            rw [h2.2]
            simp

theorem scan_files_spec {files : List (String × DataFrame)} {sc : ScanState}
    (h : scan_files files = some sc) :
    sc.invalid_files = (files.filter struct_fails).map Prod.fst ∧
    sc.invalid_date_files = (files.filter date_fails).map Prod.fst := by
  have h2 := scan_files_go_spec files _ _ h
  simpa using h2

theorem append_ne_empty_left (s t : String) (h : s ≠ "") : s ++ t ≠ "" := by
  intro hc
  apply h
  apply String.ext
  have := congrArg String.data hc
  rw [String.data_append] at this
  exact (List.append_eq_nil.1 this).1

theorem append_ne_empty_right (s t : String) (h : t ≠ "") : s ++ t ≠ "" := by
  intro hc
  apply h
  apply String.ext
  have := congrArg String.data hc
  rw [String.data_append] at this
  exact (List.append_eq_nil.1 this).2

theorem structure_msg_ne_empty {fs : List String} (h : fs ≠ []) : structure_msg fs ≠ "" := by
  rw [structure_msg, if_neg (by simpa using h)]
  exact append_ne_empty_left _ _ (append_ne_empty_left _ _ (by decide))

theorem date_msg_ne_empty {fs : List String} (h : fs ≠ []) : date_msg fs ≠ "" := by
  rw [date_msg, if_neg (by simpa using h)]
  exact append_ne_empty_left _ _ (append_ne_empty_left _ _ (by decide))

/-- Claim C2 counterexample: a batch containing a structurally failing file is
not always answered with an error diagnostic — when another file of the batch
makes the validator raise (a sheet with data but fewer than 6 rows and a full
width), the whole run raises instead and returns nothing. -/
theorem claim_C2_counterexample :
    validate_structure c2_bad_frame = some false ∧
    process_files [("a.xls", c2_bad_frame), ("b.xls", c5_frame)] = none := by
  constructor
  · rfl
  · rfl

/-- Claim C2 (amended): whenever no file of a non-empty batch makes processing
raise (the scan completes) and at least one file failed structural or date
validation, the run returns exactly the error diagnostic: type "error", no
output workbook, and the message listing the structurally failing files'
names and the date-failing files' names under their separate headings, in
batch order; aggregation and workbook construction never begin. -/
theorem claim_C2_failfast_batch_abort (files : List (String × DataFrame)) (sc : ScanState)
    (hne : files.isEmpty = false) (hsc : scan_files files = some sc)
    (hfail : sc.invalid_files ≠ [] ∨ sc.invalid_date_files ≠ []) :
    process_files files =
      some ⟨none, structure_msg sc.invalid_files ++ date_msg sc.invalid_date_files,
            some "error"⟩ ∧
    sc.invalid_files = (files.filter struct_fails).map Prod.fst ∧
    sc.invalid_date_files = (files.filter date_fails).map Prod.fst := by
  have hmsg : structure_msg sc.invalid_files ++ date_msg sc.invalid_date_files ≠ "" := by
    rcases hfail with h | h
    · exact append_ne_empty_left _ _ (structure_msg_ne_empty h)
    · exact append_ne_empty_right _ _ (date_msg_ne_empty h)
  refine ⟨?_, (scan_files_spec hsc).1, (scan_files_spec hsc).2⟩
  unfold process_files
  rw [hne]
  simp only [Bool.false_eq_true, if_false, hsc]
  rw [if_pos hmsg]

/-- The spec's fail-fast example: three files, the second structurally
invalid, the other two individually valid. -/
def c2_files : List (String × DataFrame) :=
  [("a.xlsx", c5_frame_ok), ("b.xlsx", c2_bad_frame), ("c.xlsx", c5_frame_ok)]

/-- Witness for the amended claim C2 at the spec's three-file example: only
file 2 is listed, under the structural heading, and no workbook is returned. -/
theorem claim_C2_failfast_batch_abort_witness :
    scan_files c2_files = some ⟨["b.xlsx"], [], []⟩ ∧
    (process_files c2_files =
      some ⟨none, structure_msg ["b.xlsx"] ++ date_msg [], some "error"⟩ ∧
     (["b.xlsx"] : List String) = (c2_files.filter struct_fails).map Prod.fst ∧
     ([] : List String) = (c2_files.filter date_fails).map Prod.fst) :=
  ⟨by decide,
   claim_C2_failfast_batch_abort c2_files ⟨["b.xlsx"], [], []⟩ (by decide) (by decide)
     (Or.inl (by decide))⟩

/-- Claim C8 counterexample: with duplicate filenames in one batch, the same
filename can be listed under both the structural and the date heading — one
physical file per heading. -/
theorem claim_C8_counterexample :
    scan_files [("x.xlsx", c2_bad_frame), ("x.xlsx", c8_date_frame)] =
      some ⟨["x.xlsx"], ["x.xlsx"], []⟩ ∧
    ("x.xlsx" ∈ (["x.xlsx"] : List String) ∧ "x.xlsx" ∈ (["x.xlsx"] : List String)) := by
  constructor
  · decide
  · exact ⟨List.mem_cons_self _ _, List.mem_cons_self _ _⟩

/-- Claim C8 (amended): a file is recorded under the structural heading exactly
when its own structural validation fails, and under the date heading exactly
when its structural validation passes and its dates fail — so structural
failure takes precedence for each file and, whenever the batch's filenames
are pairwise distinct, no filename appears under both headings. (With
duplicate filenames one physical file per heading can share the name.) -/
theorem claim_C8_structural_precedence (files : List (String × DataFrame)) (sc : ScanState)
    (hsc : scan_files files = some sc) :
    sc.invalid_files = (files.filter struct_fails).map Prod.fst ∧
    sc.invalid_date_files = (files.filter date_fails).map Prod.fst ∧
    (∀ nf : String × DataFrame, struct_fails nf = true → date_fails nf = false) ∧
    ((files.map Prod.fst).Nodup →
      ∀ n, n ∈ sc.invalid_files → n ∉ sc.invalid_date_files) := by
  have hspec := scan_files_spec hsc
  have hprec : ∀ nf : String × DataFrame, struct_fails nf = true → date_fails nf = false := by
    intro nf hs
    have hv : validate_structure nf.2 = some false := by
      simpa [struct_fails] using hs
    simp [date_fails, hv]
  refine ⟨hspec.1, hspec.2, hprec, ?_⟩
  intro hnd n hn1 hn2
  rw [hspec.1] at hn1
  rw [hspec.2] at hn2
  rcases List.mem_map.1 hn1 with ⟨nf1, hnf1, hname1⟩
  rcases List.mem_map.1 hn2 with ⟨nf2, hnf2, hname2⟩
  have hm1 : nf1 ∈ files := List.mem_of_mem_filter hnf1
  have hm2 : nf2 ∈ files := List.mem_of_mem_filter hnf2
  have heq : nf1 = nf2 :=
    List.inj_on_of_nodup_map hnd hm1 hm2 (hname1.trans hname2.symm)
  have hs1 : struct_fails nf1 = true := List.of_mem_filter hnf1
  have hd2 : date_fails nf2 = true := List.of_mem_filter hnf2
  rw [← heq] at hd2
  rw [hprec nf1 hs1] at hd2
  cases hd2

/-- Witness for the amended claim C8 at a batch with distinct filenames: the
structurally failing file is listed only under the structural heading and the
date-failing file only under the date heading. -/
theorem claim_C8_structural_precedence_witness :
    scan_files [("a.xlsx", c2_bad_frame), ("b.xlsx", c8_date_frame)] =
      some ⟨["a.xlsx"], ["b.xlsx"], []⟩ ∧
    (["a.xlsx"] : List String) =
      ([("a.xlsx", c2_bad_frame), ("b.xlsx", c8_date_frame)].filter struct_fails).map
        Prod.fst ∧
    (["b.xlsx"] : List String) =
      ([("a.xlsx", c2_bad_frame), ("b.xlsx", c8_date_frame)].filter date_fails).map
        Prod.fst ∧
    (∀ nf : String × DataFrame, struct_fails nf = true → date_fails nf = false) ∧
    (([("a.xlsx", c2_bad_frame), ("b.xlsx", c8_date_frame)].map Prod.fst).Nodup →
      ∀ n, n ∈ (⟨["a.xlsx"], ["b.xlsx"], []⟩ : ScanState).invalid_files →
        n ∉ (⟨["a.xlsx"], ["b.xlsx"], []⟩ : ScanState).invalid_date_files) := by
  have h := claim_C8_structural_precedence
    [("a.xlsx", c2_bad_frame), ("b.xlsx", c8_date_frame)]
    ⟨["a.xlsx"], ["b.xlsx"], []⟩ (by decide)
  exact ⟨by decide, h.1, h.2.1, h.2.2.1, h.2.2.2⟩

/-! Lemmas about the value order and the group aggregation. -/

theorem dtLt_asymm (a b : Datetime) : dtLt a b = true → dtLt b a = false := by
  intro h
  unfold dtLt at h ⊢
  split_ifs at h ⊢ <;> simp_all <;> omega

theorem dtLt_negtrans (a b c : Datetime) :
    dtLt a b = false → dtLt b c = false → dtLt a c = false := by
  intro h1 h2
  unfold dtLt at h1 h2 ⊢
  split_ifs at h1 h2 ⊢ <;> simp_all <;> omega

theorem decide_lt_asymm {α : Type} [LinearOrder α] (m n : α) :
    decide (m < n) = true → decide (n < m) = false := by
  intro h
  simp only [decide_eq_true_eq] at h
  simp only [decide_eq_false_iff_not]
  exact not_lt.2 h.le

theorem decide_lt_negtrans {α : Type} [LinearOrder α] (a b c : α) :
    decide (a < b) = false → decide (b < c) = false → decide (a < c) = false := by
  intro h1 h2
  simp only [decide_eq_false_iff_not] at h1 h2 ⊢
  exact not_lt.2 (le_trans (not_lt.1 h2) (not_lt.1 h1))

theorem payloadLt_asymm (a b : Val) : payloadLt a b = true → payloadLt b a = false := by
  intro h
  cases a <;> cases b <;> simp only [payloadLt] at h ⊢
  case s.s x y => exact strLt_asymm x y h
  case i.i m n => exact decide_lt_asymm m n h
  case f.f p q => exact decide_lt_asymm p q h
  case d.d t u => exact dtLt_asymm t u h

theorem payloadLt_negtrans (a b c : Val) (hr1 : valRank a = valRank b)
    (hr2 : valRank b = valRank c) :
    payloadLt a b = false → payloadLt b c = false → payloadLt a c = false := by
  intro h1 h2
  cases a <;> cases b <;> cases c <;>
    simp only [payloadLt] at h1 h2 ⊢ <;>
    simp only [valRank] at hr1 hr2 <;>
    try omega
  case s.s.s x y z => exact strLt_negtrans x y z h1 h2
  case i.i.i => exact decide_lt_negtrans _ _ _ h1 h2
  case f.f.f => exact decide_lt_negtrans _ _ _ h1 h2
  case d.d.d => exact dtLt_negtrans _ _ _ h1 h2

theorem valLt_asymm (a b : Val) : valLt a b = true → valLt b a = false := by
  intro h
  unfold valLt at h ⊢
  by_cases h1 : valRank a < valRank b
  · rw [if_neg (by omega), if_pos h1]
  · by_cases h2 : valRank b < valRank a
    · rw [if_neg h1, if_pos h2] at h
      cases h
    · rw [if_neg h1, if_neg h2] at h
      rw [if_neg h2, if_neg h1]
      exact payloadLt_asymm a b h

theorem valLt_negtrans (a b c : Val) :
    valLt a b = false → valLt b c = false → valLt a c = false := by
  intro h1 h2
  unfold valLt at h1 h2 ⊢
  by_cases hab : valRank a < valRank b
  · rw [if_pos hab] at h1
    cases h1
  · by_cases hbc : valRank b < valRank c
    · rw [if_pos hbc] at h2
      cases h2
    · by_cases hac : valRank a < valRank c
      · omega
      · rw [if_neg hac]
        by_cases hca : valRank c < valRank a
        · rw [if_pos hca]
        · rw [if_neg hca]
          have hr1 : valRank a = valRank b := by omega
          have hr2 : valRank b = valRank c := by omega
          rw [if_neg hab, if_neg (by omega)] at h1
          rw [if_neg hbc, if_neg (by omega)] at h2
          exact payloadLt_negtrans a b c hr1 hr2 h1 h2

theorem bumpAssoc_keys {κ : Type} [DecidableEq κ] (k : κ) (x : ℚ) :
    ∀ l : List (κ × ℚ), (bumpAssoc l k x).map Prod.fst =
      if k ∈ l.map Prod.fst then l.map Prod.fst else l.map Prod.fst ++ [k] := by
  intro l
  induction l with
  | nil => simp [bumpAssoc]
  | cons p t ih =>
    by_cases hp : p.1 = k
    · have : bumpAssoc (p :: t) k x = (p.1, p.2 + x) :: t := by
        rw [show (p :: t) = ((p.1, p.2) :: t) from by rw [Prod.mk.eta], bumpAssoc, if_pos hp]
      rw [this]
      simp [hp]
    · have hb : bumpAssoc (p :: t) k x = (p.1, p.2) :: bumpAssoc t k x := by
        rw [show (p :: t) = ((p.1, p.2) :: t) from by rw [Prod.mk.eta], bumpAssoc, if_neg hp]
      rw [hb]
      simp only [List.map_cons, ih]
      by_cases hk : k ∈ t.map Prod.fst
      · rw [if_pos hk, if_pos (by simp [hk])]
      · have hc : ¬ k ∈ (p.1 :: t.map Prod.fst) := by
          intro hmem
          rcases List.mem_cons.1 hmem with h | h
          · exact hp h.symm
          · exact hk h
        rw [if_neg hk, if_neg hc, List.cons_append]

theorem group_step_keys_of_qualifies {gk : GroupKey} {u : UnitKind} {r : Record}
    (hq : qualifies u r = true) (acc : List (Val × ℚ)) :
    (group_step gk u acc r).map Prod.fst =
      if groupVal r gk ∈ acc.map Prod.fst then acc.map Prod.fst
      else acc.map Prod.fst ++ [groupVal r gk] := by
  cases hnq : isNumV r.quantity with
  | none =>
    simp only [qualifies, hnq] at hq
    exact Bool.noConfusion hq
  | some q =>
    by_cases hsu : sort_unit u = UnitKind.Qty
    · simp only [group_step, hnq, if_pos hsu]
      exact bumpAssoc_keys _ _ acc
    · cases hnp : isNumV r.unit_price with
      | none =>
        simp only [qualifies, hnq, hnp, if_neg hsu, Option.isSome_none] at hq
        exact Bool.noConfusion hq
      | some p =>
        simp only [group_step, hnq, hnp, if_neg hsu]
        exact bumpAssoc_keys _ _ acc

theorem group_step_of_not_qualifies {gk : GroupKey} {u : UnitKind} {r : Record}
    (hq : qualifies u r = false) (acc : List (Val × ℚ)) :
    group_step gk u acc r = acc := by
  cases hnq : isNumV r.quantity with
  | none => simp only [group_step, hnq]
  | some q =>
    by_cases hsu : sort_unit u = UnitKind.Qty
    · simp only [qualifies, hnq, if_pos hsu] at hq
      exact Bool.noConfusion hq
    · cases hnp : isNumV r.unit_price with
      | none => simp only [group_step, hnq, hnp, if_neg hsu]
      | some p =>
        simp only [qualifies, hnq, hnp, if_neg hsu, Option.isSome_some] at hq
        exact Bool.noConfusion hq

theorem firstDedupAux_congr {α : Type} [DecidableEq α] :
    ∀ (l s₁ s₂ : List α), (∀ x, x ∈ s₁ ↔ x ∈ s₂) →
      firstDedupAux s₁ l = firstDedupAux s₂ l := by
  intro l
  induction l with
  | nil => intro s₁ s₂ _; rfl
  | cons x t ih =>
    intro s₁ s₂ hs
    by_cases hx : x ∈ s₁
    · rw [firstDedupAux, if_pos hx, firstDedupAux, if_pos ((hs x).1 hx)]
      exact ih s₁ s₂ hs
    · rw [firstDedupAux, if_neg hx, firstDedupAux, if_neg (fun hc => hx ((hs x).2 hc))]
      rw [ih (x :: s₁) (x :: s₂) (fun y => by
        constructor
        · intro hy
          rcases List.mem_cons.1 hy with rfl | hy
          · exact List.mem_cons_self _ _
          · exact List.mem_cons_of_mem x ((hs y).1 hy)
        · intro hy
          rcases List.mem_cons.1 hy with rfl | hy
          · exact List.mem_cons_self _ _
          · exact List.mem_cons_of_mem x ((hs y).2 hy))]

theorem group_fold_keys (gk : GroupKey) (u : UnitKind) :
    ∀ (rows : List Record) (acc : List (Val × ℚ)),
      ((rows.foldl (group_step gk u) acc).map Prod.fst) =
        acc.map Prod.fst ++
          firstDedupAux (acc.map Prod.fst) (contributing_groups gk u rows) := by
  intro rows
  induction rows with
  | nil =>
    intro acc
    simp [contributing_groups, firstDedupAux]
  | cons r rest ih =>
    intro acc
    rw [List.foldl_cons]
    cases hq : qualifies u r with
    | false =>
      rw [group_step_of_not_qualifies hq acc, ih acc]
      have hconl : contributing_groups gk u (r :: rest) = contributing_groups gk u rest := by
        unfold contributing_groups
        rw [List.filterMap_cons]
        rw [hq]
        rfl
      rw [hconl]
    | true =>
      have hconl : contributing_groups gk u (r :: rest) =
          groupVal r gk :: contributing_groups gk u rest := by
        unfold contributing_groups
        rw [List.filterMap_cons]
        rw [hq]
        rfl
      rw [hconl, ih (group_step gk u acc r), group_step_keys_of_qualifies hq acc]
      by_cases hk : groupVal r gk ∈ acc.map Prod.fst
      · rw [if_pos hk, firstDedupAux, if_pos hk]
      · rw [if_neg hk, firstDedupAux, if_neg hk, List.append_assoc, List.singleton_append]
        rw [firstDedupAux_congr (contributing_groups gk u rest)
          (acc.map Prod.fst ++ [groupVal r gk]) (groupVal r gk :: acc.map Prod.fst)
          (fun y => by
            constructor
            · intro hy
              rcases List.mem_append.1 hy with hy | hy
              · exact List.mem_cons_of_mem _ hy
              · rcases List.mem_cons.1 hy with rfl | hc
                · exact List.mem_cons_self _ _
                · cases hc
            · intro hy
              rcases List.mem_cons.1 hy with rfl | hy
              · exact List.mem_append.2 (Or.inr (List.mem_cons_self _ _))
              · exact List.mem_append.2 (Or.inl hy))]

theorem group_to_total_keys (gk : GroupKey) (u : UnitKind) (rows : List Record) :
    (group_to_total gk u rows).map Prod.fst =
      firstDedup (contributing_groups gk u rows) := by
  rw [group_to_total, group_fold_keys gk u rows []]
  rfl

/-- Claim C9: for each grouping dimension and unit, the primary group sheet
lists exactly the group values with at least one contributing record (numeric
quantity; for monetary units also numeric unit price) — any group value with
no contributing record is omitted from its rows entirely — while the yearly
sheet's tables each list exactly the distinct truthy (non-blank) group values
occurring in the records, for every year. -/
theorem claim_C9_group_presence (gk : GroupKey) (u : UnitKind) (rows : List Record)
    (g : Val) :
    (g ∈ sheet_groups gk u rows ↔ ∃ r ∈ rows, qualifies u r = true ∧ groupVal r gk = g) ∧
    (g ∈ all_groups gk rows ↔ pyTruthy g = true ∧ ∃ r ∈ rows, groupVal r gk = g) ∧
    (∀ y : String, g ∈ yearly_groups gk u rows y ↔ g ∈ all_groups gk rows) := by
  refine ⟨?_, ?_, ?_⟩
  · unfold sheet_groups
    rw [(pysort_perm _ _).mem_iff, group_to_total_keys, mem_firstDedup]
    unfold contributing_groups
    rw [List.mem_filterMap]
    constructor
    · rintro ⟨r, hr, hf⟩
      by_cases hq : qualifies u r = true
      · rw [if_pos hq] at hf
        exact ⟨r, hr, hq, Option.some.inj hf⟩
      · rw [if_neg hq] at hf
        cases hf
    · rintro ⟨r, hr, hq, hg⟩
      exact ⟨r, hr, by rw [if_pos hq, hg]⟩
  · unfold all_groups
    rw [(pysort_perm _ _).mem_iff, mem_firstDedup, List.mem_filterMap]
    constructor
    · rintro ⟨r, hr, hf⟩
      by_cases ht : pyTruthy (groupVal r gk) = true
      · rw [if_pos ht] at hf
        have hg := Option.some.inj hf
        rw [← hg]
        exact ⟨ht, r, hr, rfl⟩
      · rw [if_neg ht] at hf
        cases hf
    · rintro ⟨ht, r, hr, hg⟩
      exact ⟨r, hr, by rw [hg, if_pos ht]⟩
  · intro y
    unfold yearly_groups
    exact (pysort_perm _ _).mem_iff

theorem indexOf_firstDedupAux {α : Type} [DecidableEq α] :
    ∀ (qs seen : List α) (g₁ g₂ : α), g₁ ∉ seen → g₂ ∉ seen →
      g₁ ∈ qs → g₂ ∈ qs → qs.indexOf g₁ < qs.indexOf g₂ →
      [g₁, g₂].Sublist (firstDedupAux seen qs) := by
  intro qs
  induction qs with
  | nil => intro seen g₁ g₂ _ _ h1 _ _; cases h1
  | cons x t ih =>
    intro seen g₁ g₂ hs1 hs2 h1 h2 hidx
    by_cases hx1 : x = g₁
    · subst hx1
      have hg2x : g₂ ≠ x := by
        intro hc
        rw [hc] at hidx
        exact absurd hidx (lt_irrefl _)
      rw [firstDedupAux, if_neg hs1]
      have hg2t : g₂ ∈ t := by
        rcases List.mem_cons.1 h2 with hc | hc
        · exact absurd hc hg2x
        · exact hc
      have hmem : g₂ ∈ firstDedupAux (x :: seen) t :=
        (mem_firstDedupAux g₂ t (x :: seen)).2 ⟨hg2t, by
          intro hc
          rcases List.mem_cons.1 hc with hc | hc
          · exact hg2x hc
          · exact hs2 hc⟩
      exact (List.singleton_sublist.2 hmem).cons₂ x
    · by_cases hx2 : x = g₂
      · subst hx2
        rw [List.indexOf_cons_self] at hidx
        exact absurd hidx (Nat.not_lt_zero _)
      · have h1t : g₁ ∈ t := by
          rcases List.mem_cons.1 h1 with hc | hc
          · exact absurd hc.symm hx1
          · exact hc
        have h2t : g₂ ∈ t := by
          rcases List.mem_cons.1 h2 with hc | hc
          · exact absurd hc.symm hx2
          · exact hc
        have hidx2 : t.indexOf g₁ < t.indexOf g₂ := by
          rw [List.indexOf_cons_ne t hx1, List.indexOf_cons_ne t hx2] at hidx
          exact Nat.succ_lt_succ_iff.1 hidx
        by_cases hxs : x ∈ seen
        · rw [firstDedupAux, if_pos hxs]
          exact ih seen g₁ g₂ hs1 hs2 h1t h2t hidx2
        · rw [firstDedupAux, if_neg hxs]
          refine (ih (x :: seen) g₁ g₂ ?_ ?_ h1t h2t hidx2).cons x
          · intro hc
            rcases List.mem_cons.1 hc with hc | hc
            · exact hx1 hc.symm
            · exact hs1 hc
          · intro hc
            rcases List.mem_cons.1 hc with hc | hc
            · exact hx2 hc.symm
            · exact hs2 hc

theorem sorted_pair_sublist {α : Type} (lt : α → α → Bool)
    (hasym : ∀ a b, lt a b = true → lt b a = false) :
    ∀ {l : List α} {g₁ g₂ : α}, l.Pairwise (fun u v => lt v u = false) →
      g₁ ∈ l → g₂ ∈ l → lt g₁ g₂ = true → [g₁, g₂].Sublist l := by
  intro l
  induction l with
  | nil => intro g₁ g₂ _ h1; cases h1
  | cons x t ih =>
    intro g₁ g₂ hpw h1 h2 hlt
    rcases List.pairwise_cons.1 hpw with ⟨hx, ht⟩
    rcases List.mem_cons.1 h1 with rfl | h1t
    · have h2t : g₂ ∈ t := by
        rcases List.mem_cons.1 h2 with rfl | h
        · rw [hasym g₂ g₂ hlt] at hlt
          cases hlt
        · exact h
      exact (List.singleton_sublist.2 h2t).cons₂ g₁
    · rcases List.mem_cons.1 h2 with rfl | h2t
      · rw [hx g₁ h1t] at hlt
        cases hlt
      · exact (ih ht h1t h2t hlt).cons x

/-- Claim C6 counterexample: with equal sort totals, the emitted order does not
always match first-seen order in the input record list. Group "B" is first
seen at record 0 (a non-contributing record) and "A" at record 1, the totals
tie, yet both the primary sheet and the yearly sheet list "A" before "B" (the
primary sheet follows the first CONTRIBUTING record; the yearly sheet is
alphabetical on ties). -/
theorem claim_C6_counterexample :
    (c6_rows.map (fun r => groupVal r GroupKey.customer_name)).indexOf (Val.s "B") = 0 ∧
    (c6_rows.map (fun r => groupVal r GroupKey.customer_name)).indexOf (Val.s "A") = 1 ∧
    totalOf (group_to_total .customer_name .Qty c6_rows) (Val.s "A") =
      totalOf (group_to_total .customer_name .Qty c6_rows) (Val.s "B") ∧
    sheet_groups .customer_name .Qty c6_rows = [Val.s "A", Val.s "B"] ∧
    yearly_groups .customer_name .Qty c6_rows "2024" = [Val.s "A", Val.s "B"] := by
  refine ⟨by decide, by decide, by decide, by decide, by decide⟩

/-- Claim C6 (amended): on a primary group sheet, two groups with equal sort
totals keep the relative order in which they are first seen among the
CONTRIBUTING records (numeric quantity; for monetary units also numeric unit
price) — the order the totals dictionary first sees them; on a yearly sheet,
ties are ordered alphabetically (code-point order of the group values), the
order of the sorted base list. -/
theorem claim_C6_tie_order (gk : GroupKey) (u : UnitKind) (rows : List Record)
    (g₁ g₂ : Val) :
    (g₁ ∈ contributing_groups gk u rows →
     g₂ ∈ contributing_groups gk u rows →
     (contributing_groups gk u rows).indexOf g₁ <
       (contributing_groups gk u rows).indexOf g₂ →
     totalOf (group_to_total gk u rows) g₁ = totalOf (group_to_total gk u rows) g₂ →
     [g₁, g₂].Sublist (sheet_groups gk u rows)) ∧
    (∀ y : String,
     g₁ ∈ all_groups gk rows →
     g₂ ∈ all_groups gk rows →
     valLt g₁ g₂ = true →
     totalOf (yearTotalsFor (compute_yearly_sort_totals gk u rows) y) g₁ =
       totalOf (yearTotalsFor (compute_yearly_sort_totals gk u rows) y) g₂ →
     [g₁, g₂].Sublist (yearly_groups gk u rows y)) := by
  constructor
  · intro h1 h2 hidx htie
    show [g₁, g₂].Sublist
      (pysort (fun a b => decide (totalOf (group_to_total gk u rows) b <
        totalOf (group_to_total gk u rows) a)) ((group_to_total gk u rows).map Prod.fst))
    refine pysort_stable _ ?_ ?_
    · rw [group_to_total_keys]
      exact indexOf_firstDedupAux _ [] g₁ g₂ (by simp) (by simp) h1 h2 hidx
    · rw [htie]
      simp
  · intro y h1 h2 hlt htie
    have hpw : (all_groups gk rows).Pairwise (fun u v => valLt v u = false) :=
      pairwise_pysort valLt valLt_asymm valLt_negtrans _
    have hsub : [g₁, g₂].Sublist (all_groups gk rows) :=
      sorted_pair_sublist valLt valLt_asymm hpw h1 h2 hlt
    show [g₁, g₂].Sublist
      (pysort (fun a b => decide
        (totalOf (yearTotalsFor (compute_yearly_sort_totals gk u rows) y) b <
         totalOf (yearTotalsFor (compute_yearly_sort_totals gk u rows) y) a))
        (all_groups gk rows))
    refine pysort_stable _ hsub ?_
    rw [htie]
    simp

/-- Witness for the amended claim C6 at the concrete `c6_rows`: "A" and "B" tie
and "A" contributes first, so the primary sheet keeps [A, B]; on the yearly
sheet the alphabetical order likewise gives [A, B]. -/
theorem claim_C6_tie_order_witness :
    ((Val.s "A") ∈ contributing_groups .customer_name .Qty c6_rows ∧
     (Val.s "B") ∈ contributing_groups .customer_name .Qty c6_rows ∧
     (contributing_groups .customer_name .Qty c6_rows).indexOf (Val.s "A") <
       (contributing_groups .customer_name .Qty c6_rows).indexOf (Val.s "B") ∧
     totalOf (group_to_total .customer_name .Qty c6_rows) (Val.s "A") =
       totalOf (group_to_total .customer_name .Qty c6_rows) (Val.s "B")) ∧
    [Val.s "A", Val.s "B"].Sublist (sheet_groups .customer_name .Qty c6_rows) ∧
    [Val.s "A", Val.s "B"].Sublist (yearly_groups .customer_name .Qty c6_rows "2024") :=
  ⟨⟨by decide, by decide, by decide, by decide⟩,
   (claim_C6_tie_order .customer_name .Qty c6_rows (Val.s "A") (Val.s "B")).1
     (by decide) (by decide) (by decide) (by decide),
   (claim_C6_tie_order .customer_name .Qty c6_rows (Val.s "A") (Val.s "B")).2 "2024"
     (by decide) (by decide) (by decide) (by decide)⟩

/-! Character-level lemmas for the Text Normalizer. -/

theorem toNat_ofNat_valid (m : Nat) (h : m.isValidChar) : (Char.ofNat m).toNat = m := by
  simp [Char.ofNat, h, Char.ofNatAux, Char.toNat, UInt32.toNat, BitVec.toNat_ofNatLt]

theorem char_eq_of_toNat {c d : Char} (h : c.toNat = d.toNat) : c = d := by
  have h1 := Char.ofNat_toNat c
  have h2 := Char.ofNat_toNat d
  rw [← h1, ← h2, h]

theorem toNat_pyToUpper (c : Char) :
    (pyToUpper c).toNat =
      if 97 ≤ c.toNat ∧ c.toNat ≤ 122 then c.toNat - 32 else c.toNat := by
  unfold pyToUpper isLowerA
  by_cases h : 97 ≤ c.toNat ∧ c.toNat ≤ 122
  · rw [if_pos (by simpa using h), if_pos h]
    exact toNat_ofNat_valid _ (Or.inl (by omega))
  · rw [if_neg (by simpa using h), if_neg h]

theorem toNat_pyToLower (c : Char) :
    (pyToLower c).toNat =
      if 65 ≤ c.toNat ∧ c.toNat ≤ 90 then c.toNat + 32 else c.toNat := by
  unfold pyToLower isUpperA
  by_cases h : 65 ≤ c.toNat ∧ c.toNat ≤ 90
  · rw [if_pos (by simpa using h), if_pos h]
    exact toNat_ofNat_valid _ (Or.inl (by omega))
  · rw [if_neg (by simpa using h), if_neg h]

theorem pyToUpper_pyToUpper (c : Char) : pyToUpper (pyToUpper c) = pyToUpper c := by
  apply char_eq_of_toNat
  rw [toNat_pyToUpper, toNat_pyToUpper]
  split_ifs <;> omega

theorem pyToLower_pyToLower (c : Char) : pyToLower (pyToLower c) = pyToLower c := by
  apply char_eq_of_toNat
  rw [toNat_pyToLower, toNat_pyToLower]
  split_ifs <;> omega

theorem pyToUpper_pyToLower (c : Char) : pyToUpper (pyToLower c) = pyToUpper c := by
  apply char_eq_of_toNat
  rw [toNat_pyToUpper, toNat_pyToLower, toNat_pyToUpper]
  split_ifs <;> omega


theorem isLetterA_pyToUpper (c : Char) : isLetterA (pyToUpper c) = isLetterA c := by
  have h := toNat_pyToUpper c
  cases hc : isLetterA c with
  | true =>
    simp only [isLetterA, isLowerA, isUpperA, Bool.or_eq_true, decide_eq_true_eq, h] at hc ⊢
    split_ifs at hc ⊢ <;> omega
  | false =>
    simp only [isLetterA, isLowerA, isUpperA, Bool.or_eq_true, decide_eq_true_eq, h,
      Bool.or_eq_false_iff, decide_eq_false_iff_not] at hc ⊢
    split_ifs at hc ⊢ <;> omega

theorem isLetterA_pyToLower (c : Char) : isLetterA (pyToLower c) = isLetterA c := by
  have h := toNat_pyToLower c
  cases hc : isLetterA c with
  | true =>
    simp only [isLetterA, isLowerA, isUpperA, Bool.or_eq_true, decide_eq_true_eq, h] at hc ⊢
    split_ifs at hc ⊢ <;> omega
  | false =>
    simp only [isLetterA, isLowerA, isUpperA, Bool.or_eq_true, decide_eq_true_eq, h,
      Bool.or_eq_false_iff, decide_eq_false_iff_not] at hc ⊢
    split_ifs at hc ⊢ <;> omega

theorem isAlnumA_of_isLetterA {c : Char} (h : isLetterA c = true) : isAlnumA c = true := by
  simp only [isAlnumA, Bool.or_eq_true]
  exact Or.inl h

theorem isAlnumA_of_isDigitA {c : Char} (h : isDigitA c = true) : isAlnumA c = true := by
  simp only [isAlnumA, Bool.or_eq_true]
  exact Or.inr h

theorem isDigitA_of_not_letter {c : Char} (ha : isAlnumA c = true)
    (hl : isLetterA c = false) : isDigitA c = true := by
  simp only [isAlnumA, Bool.or_eq_true] at ha
  rcases ha with h | h
  · rw [h] at hl; cases hl
  · exact h

theorem isDigitA_false_of_letter {c : Char} (h : isLetterA c = true) : isDigitA c = false := by
  simp only [isLetterA, isLowerA, isUpperA, Bool.or_eq_true, decide_eq_true_eq] at h
  simp only [isDigitA, decide_eq_false_iff_not]
  omega

theorem pyIsSpace_false_of_alnum {c : Char} (h : isAlnumA c = true) : pyIsSpace c = false := by
  simp only [isAlnumA, isLetterA, isLowerA, isUpperA, isDigitA, Bool.or_eq_true,
    decide_eq_true_eq] at h
  simp only [pyIsSpace, decide_eq_false_iff_not]
  omega

/-! Lemmas about `chunkBy`, the embedding of the alternation regexes. -/

theorem chunkBy_cons_head (cls : Char → Bool) (c : Char) (cs : List Char) :
    ∃ ds rest, chunkBy cls (c :: cs) = (c :: ds) :: rest := by
  cases h : chunkBy cls cs with
  | nil => exact ⟨[], [], by simp [chunkBy, h]⟩
  | cons q rest =>
    cases q with
    | nil => exact ⟨[], rest, by simp [chunkBy, h]⟩
    | cons d ds =>
      by_cases hcd : cls c = cls d
      · exact ⟨d :: ds, rest, by simp [chunkBy, h, hcd]⟩
      · exact ⟨[], (d :: ds) :: rest, by simp [chunkBy, h, hcd]⟩

theorem chunkBy_ok (cls : Char → Bool) : ∀ l : List Char,
    (chunkBy cls l).flatten = l ∧
    (∀ p ∈ chunkBy cls l, p ≠ []) ∧
    (∀ p ∈ chunkBy cls l, ∀ a ∈ p, ∀ b ∈ p, cls a = cls b) ∧
    (chunkBy cls l).Chain' (fun p q => ∀ a ∈ p, ∀ b ∈ q, cls a ≠ cls b) := by
  intro l
  induction l with
  | nil => refine ⟨rfl, by simp [chunkBy], by simp [chunkBy], by simp [chunkBy]⟩
  | cons c cs ih =>
    rcases ih with ⟨ihf, ihne, ihun, ihch⟩
    cases h : chunkBy cls cs with
    | nil =>
      have hcs : cs = [] := by rw [← ihf, h]; rfl
      subst hcs
      refine ⟨by simp [chunkBy], by simp [chunkBy], by simp [chunkBy], by simp [chunkBy]⟩
    | cons q rest =>
      cases q with
      | nil =>
        exact absurd rfl (ihne [] (by rw [h]; exact List.mem_cons_self _ _))
      | cons d ds =>
        rw [h] at ihf ihne ihun ihch
        by_cases hcd : cls c = cls d
        · have hstep : chunkBy cls (c :: cs) = (c :: d :: ds) :: rest := by
            simp [chunkBy, h, hcd]
          rw [hstep]
          have hdmem : (d :: ds) ∈ (d :: ds) :: rest := List.mem_cons_self _ _
          have huni : ∀ a ∈ c :: d :: ds, cls a = cls d := by
            intro a ha
            rcases List.mem_cons.1 ha with rfl | ha
            · exact hcd
            · exact ihun (d :: ds) hdmem a ha d (List.mem_cons_self _ _)
          refine ⟨?_, ?_, ?_, ?_⟩
          · simp only [List.flatten_cons] at ihf ⊢
            rw [← ihf]
            rfl
          · intro p hp
            rcases List.mem_cons.1 hp with rfl | hp
            · simp
            · exact ihne p (List.mem_cons_of_mem _ hp)
          · intro p hp a ha b hb
            rcases List.mem_cons.1 hp with rfl | hp
            · rw [huni a ha, huni b hb]
            · exact ihun p (List.mem_cons_of_mem _ hp) a ha b hb
          · cases rest with
            | nil => simp
            | cons q2 rest2 =>
              rcases List.chain'_cons.1 ihch with ⟨hlink, hch2⟩
              refine List.chain'_cons.2 ⟨?_, hch2⟩
              intro a ha b hb
              rw [huni a ha]
              exact hlink d (List.mem_cons_self _ _) b hb
        · have hstep : chunkBy cls (c :: cs) = [c] :: (d :: ds) :: rest := by
            simp [chunkBy, h, hcd]
          rw [hstep]
          refine ⟨?_, ?_, ?_, ?_⟩
          · simp only [List.flatten_cons] at ihf ⊢
            rw [← ihf]
            rfl
          · intro p hp
            rcases List.mem_cons.1 hp with rfl | hp
            · simp
            · exact ihne p hp
          · intro p hp a ha b hb
            rcases List.mem_cons.1 hp with rfl | hp
            · rcases List.mem_singleton.1 ha with rfl
              rcases List.mem_singleton.1 hb with rfl
              rfl
            · exact ihun p hp a ha b hb
          · refine List.chain'_cons.2 ⟨?_, ihch⟩
            intro a ha b hb
            rcases List.mem_singleton.1 ha with rfl
            have hbd : cls b = cls d :=
              ihun (d :: ds) (List.mem_cons_self _ _) b hb d (List.mem_cons_self _ _)
            rw [hbd]
            exact hcd

theorem chunkBy_cons_eq (cls : Char → Bool) (c : Char) (cs : List Char) :
    chunkBy cls (c :: cs) =
      match chunkBy cls cs with
      | [] => [[c]]
      | [] :: rest => [c] :: rest
      | (d :: ds) :: rest =>
        if cls c = cls d then (c :: d :: ds) :: rest else [c] :: (d :: ds) :: rest := rfl

theorem chunkBy_append_uniform (cls : Char → Bool) (v : Bool) :
    ∀ (p r : List Char), p ≠ [] → (∀ a ∈ p, cls a = v) →
      (∀ b, r.head? = some b → cls b ≠ v) →
      chunkBy cls (p ++ r) = p :: chunkBy cls r := by
  intro p
  induction p with
  | nil => intro r hne _ _; exact absurd rfl hne
  | cons c p2 ih =>
    intro r _ hun hr
    cases p2 with
    | nil =>
      cases r with
      | nil => simp [chunkBy]
      | cons d ds =>
        rcases chunkBy_cons_head cls d ds with ⟨es, rest, hch⟩
        have hcd : ¬ cls c = cls d := by
          have h1 : cls c = v := hun c (List.mem_cons_self _ _)
          have h2 : cls d ≠ v := hr d rfl
          rw [h1]
          exact fun hc => h2 hc.symm
        simp only [List.singleton_append]
        rw [chunkBy_cons_eq, hch]
        simp only [if_neg hcd]
    | cons c2 p3 =>
      have hih : chunkBy cls (c2 :: (p3 ++ r)) = (c2 :: p3) :: chunkBy cls r := by
        have := ih r (by simp) (fun a ha => hun a (List.mem_cons_of_mem _ ha)) hr
        simpa using this
      have hcc : cls c = cls c2 := by
        rw [hun c (List.mem_cons_self _ _),
          hun c2 (List.mem_cons_of_mem _ (List.mem_cons_self _ _))]
      show chunkBy cls (c :: (c2 :: p3 ++ r)) = (c :: c2 :: p3) :: chunkBy cls r
      simp only [List.cons_append]
      rw [chunkBy_cons_eq, hih]
      simp only [if_pos hcc]

theorem chunkBy_flatten_eq (cls : Char → Bool) :
    ∀ pieces : List (List Char), (∀ p ∈ pieces, p ≠ []) →
      (∀ p ∈ pieces, ∀ a ∈ p, ∀ b ∈ p, cls a = cls b) →
      pieces.Chain' (fun p q => ∀ a ∈ p, ∀ b ∈ q, cls a ≠ cls b) →
      chunkBy cls pieces.flatten = pieces := by
  intro pieces
  induction pieces with
  | nil => intro _ _ _; rfl
  | cons p ps ih =>
    intro hne hun hch
    have hpne : p ≠ [] := hne p (List.mem_cons_self _ _)
    cases hp : p with
    | nil => exact absurd hp hpne
    | cons c p2 =>
      rw [List.flatten_cons]
      have hv : ∀ a ∈ p, cls a = cls c := by
        intro a ha
        exact hun p (List.mem_cons_self _ _) a ha c (by rw [hp]; exact List.mem_cons_self _ _)
      have hhead : ∀ b, (ps.flatten).head? = some b → cls b ≠ cls c := by
        intro b hb
        cases ps with
        | nil => simp at hb
        | cons q ps2 =>
          have hqne : q ≠ [] := hne q (List.mem_cons_of_mem _ (List.mem_cons_self _ _))
          cases hq : q with
          | nil => exact absurd hq hqne
          | cons e q2 =>
            have hbq : b ∈ q := by
              rw [List.flatten_cons] at hb
              rw [hq] at hb
              have : b = e := by
                simp only [List.cons_append, List.head?_cons] at hb
                exact (Option.some.inj hb).symm
              rw [this, hq]
              exact List.mem_cons_self _ _
            rcases List.chain'_cons.1 hch with ⟨hlink, _⟩
            intro hc
            exact hlink c (by rw [hp]; exact List.mem_cons_self _ _) b hbq hc.symm
      have hstep := chunkBy_append_uniform cls (cls c) p ps.flatten hpne hv hhead
      rw [← hp, hstep]
      congr 1
      refine ih (fun q hq => hne q (List.mem_cons_of_mem _ hq))
        (fun q hq => hun q (List.mem_cons_of_mem _ hq)) hch.tail

/-! Lemmas about stripping and flattening. -/

theorem dropWhile_head_false (p : Char → Bool) :
    ∀ (l : List Char) (c : Char), (l.dropWhile p).head? = some c → p c = false := by
  intro l
  induction l with
  | nil => intro c h; cases h
  | cons x t ih =>
    intro c h
    by_cases hx : p x = true
    · rw [List.dropWhile_cons_of_pos hx] at h
      exact ih c h
    · rw [List.dropWhile_cons_of_neg hx] at h
      have := Option.some.inj h
      rw [← this]
      exact Bool.eq_false_iff.2 hx

theorem dropWhile_eq_self_of_head (p : Char → Bool) (l : List Char)
    (h : ∀ c, l.head? = some c → p c = false) : l.dropWhile p = l := by
  cases l with
  | nil => rfl
  | cons x t =>
    exact List.dropWhile_cons_of_neg (by rw [h x rfl]; simp)

theorem stripL_head (l : List Char) (c : Char) (h : (stripL l).head? = some c) :
    pyIsSpace c = false := by
  unfold stripL at h
  have hpre : (((l.dropWhile pyIsSpace).reverse.dropWhile pyIsSpace).reverse).IsPrefix
      (l.dropWhile pyIsSpace) := by
    have hsfx : ((l.dropWhile pyIsSpace).reverse.dropWhile pyIsSpace) <:+
        (l.dropWhile pyIsSpace).reverse := List.dropWhile_suffix _
    have := List.reverse_prefix.2 hsfx
    rwa [List.reverse_reverse] at this
  rcases hpre with ⟨t, ht⟩
  have hh : (l.dropWhile pyIsSpace).head? = some c := by
    rw [← ht]
    cases hc : ((l.dropWhile pyIsSpace).reverse.dropWhile pyIsSpace).reverse with
    | nil => rw [hc] at h; cases h
    | cons x xs =>
      rw [hc] at h
      have := Option.some.inj h
      rw [← this]
      rfl
  exact dropWhile_head_false pyIsSpace l c hh

theorem stripL_getLast (l : List Char) (c : Char) (h : (stripL l).getLast? = some c) :
    pyIsSpace c = false := by
  unfold stripL at h
  rw [List.getLast?_reverse] at h
  exact dropWhile_head_false pyIsSpace (l.dropWhile pyIsSpace).reverse c h

theorem flatten_ne_nil_of_head {ps : List (List Char)} {p0 : List Char}
    (hps : ps.head? = some p0) (hne : p0 ≠ []) : ps.flatten ≠ [] := by
  cases ps with
  | nil => cases hps
  | cons q t =>
    have hq : q = p0 := Option.some.inj hps
    subst hq
    cases hp : q with
    | nil => exact absurd hp hne
    | cons x xs =>
      rw [List.flatten_cons]
      simp

theorem flatten_head_eq {ps : List (List Char)} {p0 : List Char}
    (hps : ps.head? = some p0) (hne : p0 ≠ []) : ps.flatten.head? = p0.head? := by
  cases ps with
  | nil => cases hps
  | cons q t =>
    have hq : q = p0 := Option.some.inj hps
    subst hq
    cases hp : q with
    | nil => exact absurd hp hne
    | cons x xs =>
      rw [List.flatten_cons]
      rfl

theorem flatten_getLast_eq :
    ∀ (ps : List (List Char)) (pl : List Char), ps.getLast? = some pl →
      (∀ p ∈ ps, p ≠ []) → ps.flatten.getLast? = pl.getLast? := by
  intro ps
  induction ps with
  | nil => intro pl h _; cases h
  | cons p t ih =>
    intro pl hl hne
    cases t with
    | nil =>
      have hp : p = pl := Option.some.inj hl
      subst hp
      rw [List.flatten_cons, List.flatten_nil, List.append_nil]
    | cons q t2 =>
      rw [List.getLast?_cons_cons] at hl
      have hq : (q :: t2).flatten.getLast? = pl.getLast? :=
        ih pl hl (fun r hr => hne r (List.mem_cons_of_mem _ hr))
      rw [List.flatten_cons, List.getLast?_append, hq]
      have hqne : (q :: t2).flatten ≠ [] :=
        flatten_ne_nil_of_head rfl (hne q (List.mem_cons_of_mem _ (List.mem_cons_self _ _)))
      cases hpl : pl.getLast? with
      | none =>
        rw [hpl] at hq
        cases hg : (q :: t2).flatten with
        | nil => exact absurd hg hqne
        | cons y ys =>
          rw [hg] at hq
          rw [List.getLast?_cons] at hq
          simp at hq
      | some z => rfl

/-! Lemmas about the run-level casing operations of the Text Normalizer. -/

theorem upperRun_upperRun (s : List Char) : upperRun (upperRun s) = upperRun s := by
  unfold upperRun
  rw [List.map_map]
  exact List.map_congr_left (fun c _ => pyToUpper_pyToUpper c)

theorem upperRun_capitalizeRun (s : List Char) :
    upperRun (capitalizeRun s) = upperRun s := by
  cases s with
  | nil => rfl
  | cons c cs =>
    simp only [capitalizeRun, upperRun, List.map_cons, List.map_map]
    rw [pyToUpper_pyToUpper]
    congr 1
    exact List.map_congr_left (fun x _ => pyToUpper_pyToLower x)

theorem capitalizeRun_capitalizeRun (s : List Char) :
    capitalizeRun (capitalizeRun s) = capitalizeRun s := by
  cases s with
  | nil => rfl
  | cons c cs =>
    simp only [capitalizeRun, List.map_map]
    rw [pyToUpper_pyToUpper]
    congr 1
    exact List.map_congr_left (fun x _ => pyToLower_pyToLower x)

theorem capitalizeRun_length (s : List Char) : (capitalizeRun s).length = s.length := by
  cases s with
  | nil => rfl
  | cons c cs => simp [capitalizeRun]

theorem processLetterRun_idem (pres : List String) (s : List Char) :
    processLetterRun pres (processLetterRun pres s) = processLetterRun pres s := by
  by_cases h1 : String.mk (upperRun s) ∈ pres
  · have hfirst : processLetterRun pres s = upperRun s := by
      simp only [processLetterRun]
      rw [if_pos h1]
    rw [hfirst]
    simp only [processLetterRun]
    rw [upperRun_upperRun]
    rw [if_pos h1]
  · by_cases h2 : s.length ≤ 2
    · have hfirst : processLetterRun pres s = s := by
        simp only [processLetterRun]
        rw [if_neg h1, if_pos h2]
      rw [hfirst]
      simp only [processLetterRun]
      rw [if_neg h1, if_pos h2]
    · have hfirst : processLetterRun pres s = capitalizeRun s := by
        simp only [processLetterRun]
        rw [if_neg h1, if_neg h2]
      rw [hfirst]
      simp only [processLetterRun]
      rw [upperRun_capitalizeRun, if_neg h1]
      simp only [capitalizeRun_length]
      rw [if_neg h2]
      exact capitalizeRun_capitalizeRun s

theorem processLetterRun_ne_nil (pres : List String) (s : List Char) (h : s ≠ []) :
    processLetterRun pres s ≠ [] := by
  simp only [processLetterRun]
  split
  · simp only [upperRun, ne_eq, List.map_eq_nil_iff]
    exact h
  · split
    · exact h
    · cases s with
      | nil => exact absurd rfl h
      | cons c cs => simp [capitalizeRun]

theorem processLetterRun_letters (pres : List String) (s : List Char)
    (h : ∀ c ∈ s, isLetterA c = true) :
    ∀ c ∈ processLetterRun pres s, isLetterA c = true := by
  intro c hc
  simp only [processLetterRun, upperRun] at hc
  split at hc
  · rcases List.mem_map.1 hc with ⟨a, ha, rfl⟩
    rw [isLetterA_pyToUpper]
    exact h a ha
  · split at hc
    · exact h c hc
    · cases s with
      | nil => cases hc
      | cons x xs =>
        simp only [capitalizeRun] at hc
        rcases List.mem_cons.1 hc with rfl | hc
        · rw [isLetterA_pyToUpper]
          exact h x (List.mem_cons_self _ _)
        · rcases List.mem_map.1 hc with ⟨a, ha, rfl⟩
          rw [isLetterA_pyToLower]
          exact h a (List.mem_cons_of_mem _ ha)

theorem processSub_of_all_digit (pres : List String) (sub : List Char)
    (h : sub.all isDigitA = true) : processSub pres sub = sub := by
  unfold processSub
  exact if_pos h

theorem processSub_of_not_all_digit (pres : List String) (sub : List Char)
    (h : sub.all isDigitA = false) : processSub pres sub = processLetterRun pres sub := by
  unfold processSub
  exact if_neg (by simp [h])

theorem processSub_chunk_facts (pres : List String) (sub : List Char) (hne : sub ≠ [])
    (hal : ∀ c ∈ sub, isAlnumA c = true)
    (hun : ∀ a ∈ sub, ∀ b ∈ sub, isLetterA a = isLetterA b) :
    processSub pres sub ≠ [] ∧
    (∀ a ∈ processSub pres sub, isAlnumA a = true) ∧
    (∀ a ∈ processSub pres sub, ∀ b ∈ sub, isLetterA a = isLetterA b) ∧
    processSub pres (processSub pres sub) = processSub pres sub := by
  cases sub with
  | nil => exact absurd rfl hne
  | cons c rest =>
    cases hl : isLetterA c with
    | true =>
      have hlet : ∀ a ∈ c :: rest, isLetterA a = true := by
        intro a ha
        rw [hun a ha c (List.mem_cons_self _ _)]
        exact hl
      have hdig : (c :: rest).all isDigitA = false := by
        rw [List.all_cons, isDigitA_false_of_letter hl, Bool.false_and]
      have hsub : processSub pres (c :: rest) = processLetterRun pres (c :: rest) :=
        processSub_of_not_all_digit pres _ hdig
      have hrlet : ∀ a ∈ processLetterRun pres (c :: rest), isLetterA a = true :=
        processLetterRun_letters pres _ hlet
      refine ⟨?_, ?_, ?_, ?_⟩
      · rw [hsub]
        exact processLetterRun_ne_nil pres _ (by simp)
      · intro a ha
        rw [hsub] at ha
        exact isAlnumA_of_isLetterA (hrlet a ha)
      · intro a ha b hb
        rw [hsub] at ha
        rw [hrlet a ha, hlet b hb]
      · rw [hsub]
        cases hres : processLetterRun pres (c :: rest) with
        | nil => exact absurd hres (processLetterRun_ne_nil pres _ (by simp))
        | cons y ys =>
          have hy : isLetterA y = true := hrlet y (by rw [hres]; exact List.mem_cons_self _ _)
          have hd2 : (y :: ys).all isDigitA = false := by
            rw [List.all_cons, isDigitA_false_of_letter hy, Bool.false_and]
          rw [processSub_of_not_all_digit pres _ hd2, ← hres]
          exact processLetterRun_idem pres _
    | false =>
      have hdig : ∀ a ∈ c :: rest, isDigitA a = true := by
        intro a ha
        refine isDigitA_of_not_letter (hal a ha) ?_
        rw [hun a ha c (List.mem_cons_self _ _)]
        exact hl
      have hall : (c :: rest).all isDigitA = true := List.all_eq_true.2 hdig
      have hsub : processSub pres (c :: rest) = c :: rest :=
        processSub_of_all_digit pres _ hall
      refine ⟨?_, ?_, ?_, ?_⟩
      · rw [hsub]
        simp
      · intro a ha
        rw [hsub] at ha
        exact hal a ha
      · intro a ha b hb
        rw [hsub] at ha
        exact hun a ha b hb
      · rw [hsub]
        exact hsub

theorem chain_map_of_mem {α β : Type} {R : α → α → Prop} {S : β → β → Prop} (f : α → β) :
    ∀ l : List α, (∀ a ∈ l, ∀ b ∈ l, R a b → S (f a) (f b)) → l.Chain' R →
      (l.map f).Chain' S := by
  intro l
  induction l with
  | nil => intro _ _; simp
  | cons a t ih =>
    intro himp hch
    cases t with
    | nil => simp
    | cons b t2 =>
      rw [List.map_cons, List.map_cons]
      refine List.chain'_cons.2 ⟨?_, ?_⟩
      · exact himp a (List.mem_cons_self _ _)
          b (List.mem_cons_of_mem _ (List.mem_cons_self _ _)) (List.chain'_cons.1 hch).1
      · rw [← List.map_cons]
        exact ih
          (fun x hx y hy hr =>
            himp x (List.mem_cons_of_mem _ hx) y (List.mem_cons_of_mem _ hy) hr)
          (List.chain'_cons.1 hch).2

theorem processWord_facts (pres : List String) (w : List Char) (hne : w ≠ [])
    (hal : ∀ c ∈ w, isAlnumA c = true) :
    processWord pres w ≠ [] ∧
    (∀ a ∈ processWord pres w, isAlnumA a = true) ∧
    processWord pres (processWord pres w) = processWord pres w := by
  obtain ⟨hfl, hcne, hcun, hcch⟩ := chunkBy_ok isLetterA w
  have hmem : ∀ p ∈ chunkBy isLetterA w, ∀ a ∈ p, a ∈ w := by
    intro p hp a ha
    rw [← hfl]
    exact List.mem_flatten.2 ⟨p, hp, ha⟩
  have hfacts : ∀ p ∈ chunkBy isLetterA w,
      processSub pres p ≠ [] ∧ (∀ a ∈ processSub pres p, isAlnumA a = true) ∧
      (∀ a ∈ processSub pres p, ∀ b ∈ p, isLetterA a = isLetterA b) ∧
      processSub pres (processSub pres p) = processSub pres p :=
    fun p hp =>
      processSub_chunk_facts pres p (hcne p hp) (fun c hc => hal c (hmem p hp c hc)) (hcun p hp)
  have halout : ∀ a ∈ processWord pres w, isAlnumA a = true := by
    intro a ha
    unfold processWord at ha
    rcases List.mem_flatten.1 ha with ⟨q, hq, haq⟩
    rcases List.mem_map.1 hq with ⟨p, hp, rfl⟩
    exact (hfacts p hp).2.1 a haq
  refine ⟨?_, halout, ?_⟩
  · cases hck : chunkBy isLetterA w with
    | nil =>
      exfalso
      rw [hck] at hfl
      exact hne hfl.symm
    | cons p0 t =>
      unfold processWord
      rw [hck]
      have h1 : ((p0 :: t).map (processSub pres)).head? = some (processSub pres p0) := by
        rw [List.map_cons, List.head?_cons]
      exact flatten_ne_nil_of_head h1
        ((hfacts p0 (by rw [hck]; exact List.mem_cons_self _ _)).1)
  · have hchunks2 : chunkBy isLetterA (processWord pres w) =
        (chunkBy isLetterA w).map (processSub pres) := by
      unfold processWord
      apply chunkBy_flatten_eq
      · intro q hq
        rcases List.mem_map.1 hq with ⟨p, hp, rfl⟩
        exact (hfacts p hp).1
      · intro q hq a ha b hb
        rcases List.mem_map.1 hq with ⟨p, hp, rfl⟩
        cases hpe : p with
        | nil => exact absurd hpe (hcne p hp)
        | cons x xs =>
          have h1 := (hfacts p hp).2.2.1 a ha x (by rw [hpe]; exact List.mem_cons_self _ _)
          have h2 := (hfacts p hp).2.2.1 b hb x (by rw [hpe]; exact List.mem_cons_self _ _)
          rw [h1, h2]
      · refine chain_map_of_mem (processSub pres) (chunkBy isLetterA w) ?_ hcch
        intro p hp q hq hr a ha b hb
        cases hpe : p with
        | nil => exact absurd hpe (hcne p hp)
        | cons x xs =>
          cases hqe : q with
          | nil => exact absurd hqe (hcne q hq)
          | cons y ys =>
            have h1 := (hfacts p hp).2.2.1 a ha x (by rw [hpe]; exact List.mem_cons_self _ _)
            have h2 := (hfacts q hq).2.2.1 b hb y (by rw [hqe]; exact List.mem_cons_self _ _)
            rw [h1, h2]
            exact hr x (by rw [hpe]; exact List.mem_cons_self _ _)
              y (by rw [hqe]; exact List.mem_cons_self _ _)
    have hmap2 : ((chunkBy isLetterA w).map (processSub pres)).map (processSub pres) =
        (chunkBy isLetterA w).map (processSub pres) := by
      rw [List.map_map]
      exact List.map_congr_left (fun p hp => (hfacts p hp).2.2.2)
    show ((chunkBy isLetterA (processWord pres w)).map (processSub pres)).flatten =
      processWord pres w
    rw [hchunks2, hmap2]
    rfl

theorem processPart_of_all (pres : List String) (part : List Char)
    (h : part.all isAlnumA = true) : processPart pres part = processWord pres part := by
  unfold processPart
  exact if_pos h

theorem processPart_of_not_all (pres : List String) (part : List Char)
    (h : ¬ part.all isAlnumA = true) : processPart pres part = part := by
  unfold processPart
  exact if_neg h

theorem processPart_facts (pres : List String) (part : List Char) (hne : part ≠ [])
    (hun : ∀ a ∈ part, ∀ b ∈ part, isAlnumA a = isAlnumA b) :
    processPart pres part ≠ [] ∧
    (∀ a ∈ processPart pres part, ∀ b ∈ part, isAlnumA a = isAlnumA b) ∧
    processPart pres (processPart pres part) = processPart pres part := by
  by_cases hall : part.all isAlnumA = true
  · have hpp : processPart pres part = processWord pres part :=
      processPart_of_all pres part hall
    obtain ⟨h1, h2, h3⟩ := processWord_facts pres part hne (List.all_eq_true.1 hall)
    refine ⟨by rw [hpp]; exact h1, ?_, ?_⟩
    · intro a ha b hb
      rw [hpp] at ha
      rw [h2 a ha, List.all_eq_true.1 hall b hb]
    · rw [hpp]
      have hcast : processPart pres (processWord pres part) =
          processWord pres (processWord pres part) :=
        processPart_of_all pres _ (List.all_eq_true.2 h2)
      rw [hcast, h3]
  · have hpp : processPart pres part = part := processPart_of_not_all pres part hall
    exact ⟨by rw [hpp]; exact hne, by rw [hpp]; exact hun, by rw [hpp]; exact hpp⟩

theorem properCaseCore_fixed (pres : List String) (cks : List (List Char))
    (hcne : ∀ p ∈ cks, p ≠ [])
    (hcun : ∀ p ∈ cks, ∀ a ∈ p, ∀ b ∈ p, isAlnumA a = isAlnumA b)
    (hcch : cks.Chain' (fun p q => ∀ a ∈ p, ∀ b ∈ q, isAlnumA a ≠ isAlnumA b))
    (hhead : ∀ c, (cks.flatten).head? = some c → pyIsSpace c = false)
    (hlast : ∀ c, (cks.flatten).getLast? = some c → pyIsSpace c = false) :
    properCaseCore pres ((cks.map (processPart pres)).flatten) =
      (cks.map (processPart pres)).flatten := by
  have hfacts : ∀ p ∈ cks,
      processPart pres p ≠ [] ∧
      (∀ a ∈ processPart pres p, ∀ b ∈ p, isAlnumA a = isAlnumA b) ∧
      processPart pres (processPart pres p) = processPart pres p :=
    fun p hp => processPart_facts pres p (hcne p hp) (hcun p hp)
  have hA : ∀ c, ((cks.map (processPart pres)).flatten).head? = some c →
      pyIsSpace c = false := by
    intro c hc
    cases hck : cks with
    | nil => rw [hck] at hc; cases hc
    | cons p0 t =>
      have hp0 : p0 ∈ cks := by rw [hck]; exact List.mem_cons_self _ _
      have hhd : ((cks.map (processPart pres)).flatten).head? = (processPart pres p0).head? := by
        refine flatten_head_eq ?_ (hfacts p0 hp0).1
        rw [hck, List.map_cons]
        rfl
      rw [hhd] at hc
      by_cases hall : p0.all isAlnumA = true
      · have hca : isAlnumA c = true := by
          cases hpe : p0 with
          | nil => exact absurd hpe (hcne p0 hp0)
          | cons x xs =>
            have h1 := (hfacts p0 hp0).2.1 c (List.mem_of_mem_head? hc)
              x (by rw [hpe]; exact List.mem_cons_self _ _)
            rw [h1]
            exact List.all_eq_true.1 hall x (by rw [hpe]; exact List.mem_cons_self _ _)
        exact pyIsSpace_false_of_alnum hca
      · rw [processPart_of_not_all pres p0 hall] at hc
        refine hhead c ?_
        have hps : cks.head? = some p0 := by rw [hck, List.head?_cons]
        rw [flatten_head_eq hps (hcne p0 hp0)]
        exact hc
  have hB : ∀ c, ((cks.map (processPart pres)).flatten).getLast? = some c →
      pyIsSpace c = false := by
    intro c hc
    cases hck : cks with
    | nil => rw [hck] at hc; cases hc
    | cons p0 t =>
      have hckne : cks ≠ [] := by rw [hck]; simp
      obtain ⟨pl, hpl⟩ : ∃ pl, cks.getLast? = some pl := by
        cases hg : cks.getLast? with
        | none => exact absurd (List.getLast?_eq_none_iff.1 hg) hckne
        | some z => exact ⟨z, rfl⟩
      have hplm : pl ∈ cks := List.mem_of_mem_getLast? hpl
      have hlst : ((cks.map (processPart pres)).flatten).getLast? =
          (processPart pres pl).getLast? := by
        refine flatten_getLast_eq _ (processPart pres pl) ?_ ?_
        · rw [List.getLast?_map, hpl]
          rfl
        · intro q hq
          rcases List.mem_map.1 hq with ⟨p, hp, rfl⟩
          exact (hfacts p hp).1
      rw [hlst] at hc
      by_cases hall : pl.all isAlnumA = true
      · have hca : isAlnumA c = true := by
          cases hpe : pl with
          | nil => exact absurd hpe (hcne pl hplm)
          | cons x xs =>
            have h1 := (hfacts pl hplm).2.1 c (List.mem_of_mem_getLast? hc)
              x (by rw [hpe]; exact List.mem_cons_self _ _)
            rw [h1]
            exact List.all_eq_true.1 hall x (by rw [hpe]; exact List.mem_cons_self _ _)
        exact pyIsSpace_false_of_alnum hca
      · rw [processPart_of_not_all pres pl hall] at hc
        refine hlast c ?_
        rw [flatten_getLast_eq cks pl hpl hcne]
        exact hc
  have hstrip : stripL ((cks.map (processPart pres)).flatten) =
      (cks.map (processPart pres)).flatten := by
    unfold stripL
    rw [dropWhile_eq_self_of_head pyIsSpace _ (fun c hc => hA c hc)]
    rw [dropWhile_eq_self_of_head pyIsSpace _ ?_]
    · exact List.reverse_reverse _
    · intro c hc
      rw [List.head?_reverse] at hc
      exact hB c hc
  have hchunks2 : chunkBy isAlnumA ((cks.map (processPart pres)).flatten) =
      cks.map (processPart pres) := by
    apply chunkBy_flatten_eq
    · intro q hq
      rcases List.mem_map.1 hq with ⟨p, hp, rfl⟩
      exact (hfacts p hp).1
    · intro q hq a ha b hb
      rcases List.mem_map.1 hq with ⟨p, hp, rfl⟩
      cases hpe : p with
      | nil => exact absurd hpe (hcne p hp)
      | cons x xs =>
        have h1 := (hfacts p hp).2.1 a ha x (by rw [hpe]; exact List.mem_cons_self _ _)
        have h2 := (hfacts p hp).2.1 b hb x (by rw [hpe]; exact List.mem_cons_self _ _)
        rw [h1, h2]
    · refine chain_map_of_mem (processPart pres) cks ?_ hcch
      intro p hp q hq hr a ha b hb
      cases hpe : p with
      | nil => exact absurd hpe (hcne p hp)
      | cons x xs =>
        cases hqe : q with
        | nil => exact absurd hqe (hcne q hq)
        | cons y ys =>
          have h1 := (hfacts p hp).2.1 a ha x (by rw [hpe]; exact List.mem_cons_self _ _)
          have h2 := (hfacts q hq).2.1 b hb y (by rw [hqe]; exact List.mem_cons_self _ _)
          rw [h1, h2]
          exact hr x (by rw [hpe]; exact List.mem_cons_self _ _)
            y (by rw [hqe]; exact List.mem_cons_self _ _)
  have hmap2 : (cks.map (processPart pres)).map (processPart pres) =
      cks.map (processPart pres) := by
    rw [List.map_map]
    exact List.map_congr_left (fun p hp => (hfacts p hp).2.2)
  show ((chunkBy isAlnumA (stripL ((cks.map (processPart pres)).flatten))).map
      (processPart pres)).flatten = (cks.map (processPart pres)).flatten
  rw [hstrip, hchunks2, hmap2]

theorem properCaseCore_idem (pres : List String) (l : List Char) :
    properCaseCore pres (properCaseCore pres l) = properCaseCore pres l := by
  obtain ⟨hfl, hcne, hcun, hcch⟩ := chunkBy_ok isAlnumA (stripL l)
  have hout : properCaseCore pres l =
      ((chunkBy isAlnumA (stripL l)).map (processPart pres)).flatten := rfl
  rw [hout]
  exact properCaseCore_fixed pres (chunkBy isAlnumA (stripL l)) hcne hcun hcch
    (fun c hc => stripL_head l c (by rw [← hfl]; exact hc))
    (fun c hc => stripL_getLast l c (by rw [← hfl]; exact hc))

/-- C7: the Text Normalizer is idempotent — for every text `x` and every
preserve-set `S`, `proper_case (proper_case x S) S = proper_case x S`. -/
theorem claim_C7_normalizer_idempotent (x : String) (S : List String) :
    proper_case (proper_case x S) S = proper_case x S := by
  by_cases hx : x = ""
  · subst hx
    simp [proper_case]
  · have h1 : proper_case x S = String.mk (properCaseCore S x.data) := by
      unfold proper_case
      rw [if_neg hx]
    by_cases h0 : String.mk (properCaseCore S x.data) = ""
    · rw [h1, h0]
      simp [proper_case]
    · rw [h1]
      have h2 : proper_case (String.mk (properCaseCore S x.data)) S =
          String.mk (properCaseCore S (String.mk (properCaseCore S x.data)).data) := by
        unfold proper_case
        rw [if_neg h0]
      rw [h2]
      have hdata : (String.mk (properCaseCore S x.data)).data = properCaseCore S x.data := rfl
      rw [hdata, properCaseCore_idem]

/-! Lemmas for the Period Hierarchy Builder (claim C1). -/

theorem monthBucketsFor_address (year : String) :
    ∀ (c : Nat) (l : List Nat),
      (monthBucketsFor year c l).map (fun b => b.address) = monthLetters c l.length := by
  intro c l
  induction l generalizing c with
  | nil => rfl
  | cons m ms ih => simp [monthBucketsFor, monthLetters, ih]

theorem monthBucketsFor_periods (year : String) :
    ∀ (c : Nat) (l : List Nat),
      (monthBucketsFor year c l).map (fun b => b.periods) =
        l.map (fun m => [fmtPeriod year m]) := by
  intro c l
  induction l generalizing c with
  | nil => rfl
  | cons m ms ih => simp [monthBucketsFor, ih]

theorem monthBucketsFor_filter_month (year : String) :
    ∀ (c : Nat) (l : List Nat),
      (monthBucketsFor year c l).filter (fun b => b.ptype = "month") =
        monthBucketsFor year c l := by
  intro c l
  induction l generalizing c with
  | nil => rfl
  | cons m ms ih => simp [monthBucketsFor, List.filter_cons, ih]

theorem emitMonth_fold (year : String) :
    ∀ (l : List Nat) (s : BuildState) (acc : List String),
      l.foldl (emitMonth year) (s, acc) =
        (⟨s.period_columns ++ monthBucketsFor year s.current_col l,
          s.current_col + l.length,
          s.all_month_letters ++ monthLetters s.current_col l.length,
          fun y => if y = year then
              s.year_month_letters y ++ monthLetters s.current_col l.length
            else s.year_month_letters y⟩,
         acc ++ monthLetters s.current_col l.length) := by
  intro l
  induction l with
  | nil =>
    intro s acc
    simp only [List.foldl_nil, monthBucketsFor, monthLetters, List.length_nil,
      List.append_nil, Nat.add_zero, ite_self]
  | cons m rest ih =>
    intro s acc
    rw [List.foldl_cons]
    simp only [emitMonth]
    rw [ih]
    simp only [Prod.mk.injEq, BuildState.mk.injEq]
    refine ⟨⟨?_, ?_, ?_, ?_⟩, ?_⟩
    · simp [monthBucketsFor, List.append_assoc]
    · simp only [List.length_cons]
      omega
    · simp [monthLetters, List.length_cons, List.append_assoc]
    · funext yy
      by_cases hyy : yy = year
      · simp [hyy, monthLetters, List.length_cons, List.append_assoc]
      · simp [hyy]
    · simp [monthLetters, List.length_cons, List.append_assoc]

theorem emitQuarter_eq (year : String) (ms : List Nat) (s : BuildState) (q : Nat) :
    emitQuarter year ms s q =
      if (ms.filter (inQuarter q)).isEmpty then s
      else
        ⟨s.period_columns ++ monthBucketsFor year s.current_col (ms.filter (inQuarter q)) ++
           [⟨quarter_label q year, "quarter", (ms.filter (inQuarter q)).map (fmtPeriod year),
             some (monthLetters s.current_col (ms.filter (inQuarter q)).length),
             get_column_letter (s.current_col + (ms.filter (inQuarter q)).length)⟩],
         s.current_col + (ms.filter (inQuarter q)).length + 1,
         s.all_month_letters ++ monthLetters s.current_col (ms.filter (inQuarter q)).length,
         fun y => if y = year then
             s.year_month_letters y ++
               monthLetters s.current_col (ms.filter (inQuarter q)).length
           else s.year_month_letters y⟩ := by
  have hfq : ms.filter (fun m => quarter_start q ≤ m && m ≤ quarter_start q + 2) =
      ms.filter (inQuarter q) := rfl
  simp only [emitQuarter, hfq]
  by_cases he : (ms.filter (inQuarter q)).isEmpty = true
  · rw [if_pos he, if_pos he]
  · rw [if_neg he, if_neg he]
    rw [emitMonth_fold]
    simp [List.append_assoc]

theorem emitQuarter_fold (year : String) (ms : List Nat) :
    ∀ (qs : List Nat) (s : BuildState),
      qs.foldl (emitQuarter year ms) s =
        ⟨s.period_columns ++ quarterColumnsSpec year s.current_col ms qs,
         s.current_col + quarterSpan ms qs,
         s.all_month_letters ++ quarterMonthLetters ms s.current_col qs,
         fun y => if y = year then
             s.year_month_letters y ++ quarterMonthLetters ms s.current_col qs
           else s.year_month_letters y⟩ := by
  intro qs
  induction qs with
  | nil =>
    intro s
    simp only [List.foldl_nil, quarterColumnsSpec, quarterSpan, quarterMonthLetters,
      List.append_nil, Nat.add_zero, ite_self]
  | cons q qs2 ih =>
    intro s
    rw [List.foldl_cons, emitQuarter_eq]
    by_cases he : (ms.filter (inQuarter q)).isEmpty = true
    · rw [if_pos he, ih]
      simp only [quarterColumnsSpec, quarterSpan, quarterMonthLetters, he, if_true,
        Nat.zero_add]
    · have he' : (ms.filter (inQuarter q)).isEmpty = false := by
        cases hb : (ms.filter (inQuarter q)).isEmpty with
        | true => exact absurd hb he
        | false => rfl
      rw [if_neg he, ih]
      simp only [quarterColumnsSpec, quarterSpan, quarterMonthLetters, he',
        Bool.false_eq_true, if_false, BuildState.mk.injEq]
      refine ⟨?_, ?_, ?_, ?_⟩
      · rw [monthBucketsFor_address]
        simp [List.append_assoc]
      · omega
      · simp [List.append_assoc]
      · funext yy
        by_cases hyy : yy = year
        · simp [hyy, List.append_assoc]
        · simp [hyy]

theorem quarterColumnsSpec_filter_month (year : String) :
    ∀ (qs : List Nat) (c : Nat) (ms : List Nat),
      ((quarterColumnsSpec year c ms qs).filter (fun b => b.ptype = "month")).map
          (fun b => b.address) =
        quarterMonthLetters ms c qs := by
  intro qs
  induction qs with
  | nil => intro c ms; rfl
  | cons q qs2 ih =>
    intro c ms
    by_cases he : (ms.filter (inQuarter q)).isEmpty = true
    · simp only [quarterColumnsSpec, quarterMonthLetters, he, if_true]
      exact ih c ms
    · have he' : (ms.filter (inQuarter q)).isEmpty = false := by
        cases hb : (ms.filter (inQuarter q)).isEmpty with
        | true => exact absurd hb he
        | false => rfl
      simp only [quarterColumnsSpec, quarterMonthLetters, he', Bool.false_eq_true, if_false]
      rw [List.filter_append, List.filter_cons]
      have hq : (decide (("quarter" : String) = "month")) = false := by decide
      simp only [hq, Bool.false_eq_true, if_false]
      rw [monthBucketsFor_filter_month, List.map_append, monthBucketsFor_address, ih]

theorem quarterColumnsSpec_months_periods (year : String) :
    ∀ (qs : List Nat) (c : Nat) (ms : List Nat),
      ((quarterColumnsSpec year c ms qs).filter (fun b => b.ptype = "month")).map
          (fun b => b.periods) =
        (qs.flatMap (fun q => ms.filter (inQuarter q))).map (fun m => [fmtPeriod year m]) := by
  intro qs
  induction qs with
  | nil => intro c ms; rfl
  | cons q qs2 ih =>
    intro c ms
    by_cases he : (ms.filter (inQuarter q)).isEmpty = true
    · have hnil : ms.filter (inQuarter q) = [] := by
        cases hb : ms.filter (inQuarter q) with
        | nil => rfl
        | cons a t => rw [hb] at he; cases he
      simp only [quarterColumnsSpec, he, if_true, List.flatMap_cons, hnil, List.nil_append]
      exact ih c ms
    · have he' : (ms.filter (inQuarter q)).isEmpty = false := by
        cases hb : (ms.filter (inQuarter q)).isEmpty with
        | true => exact absurd hb he
        | false => rfl
      simp only [quarterColumnsSpec, he', Bool.false_eq_true, if_false, List.flatMap_cons]
      rw [List.filter_append, List.filter_cons]
      have hq : (decide (("quarter" : String) = "month")) = false := by decide
      simp only [hq, Bool.false_eq_true, if_false]
      rw [List.map_append, monthBucketsFor_filter_month, monthBucketsFor_periods,
        List.map_append, ih]

theorem emitYear_eq (sorted_periods : List String) (s : BuildState) (year : String)
    (ms : List Nat) (hmoy : months_of_year sorted_periods year = ms) (hne : ms ≠ [])
    (hyml : s.year_month_letters year = []) :
    emitYear sorted_periods s year =
      ⟨s.period_columns ++ yearColumnsSpec year s.current_col ms,
       s.current_col + yearSpan ms,
       s.all_month_letters ++ quarterMonthLetters ms s.current_col [1, 2, 3, 4],
       fun y => if y = year then quarterMonthLetters ms s.current_col [1, 2, 3, 4]
                else s.year_month_letters y⟩ := by
  have hemp : ms.isEmpty = false := by
    cases ms with
    | nil => exact absurd rfl hne
    | cons a t => rfl
  simp only [emitYear, hmoy, hemp, Bool.false_eq_true, if_false]
  rw [emitQuarter_fold]
  simp only [BuildState.mk.injEq]
  refine ⟨?_, ?_, trivial, ?_⟩
  · simp only [yearColumnsSpec, if_pos rfl, hyml, List.nil_append]
    rw [quarterColumnsSpec_filter_month]
    simp [List.append_assoc]
  · simp only [yearSpan]
    omega
  · funext yy
    by_cases hyy : yy = year
    · simp [hyy, hyml]
    · simp [hyy]

theorem emitYear_fold (sorted_periods : List String) :
    ∀ (yms : List (String × List Nat)) (s : BuildState),
      (∀ ym ∈ yms, months_of_year sorted_periods ym.1 = ym.2) →
      (∀ ym ∈ yms, ym.2 ≠ []) →
      (∀ ym ∈ yms, s.year_month_letters ym.1 = []) →
      (yms.map Prod.fst).Pairwise (fun a b => a ≠ b) →
      ((yms.map Prod.fst).foldl (emitYear sorted_periods) s).period_columns =
          s.period_columns ++ yearsColumnsSpec s.current_col yms ∧
      ((yms.map Prod.fst).foldl (emitYear sorted_periods) s).current_col =
          s.current_col + yearsSpan yms ∧
      ((yms.map Prod.fst).foldl (emitYear sorted_periods) s).all_month_letters =
          s.all_month_letters ++ yearsMonthLetters s.current_col yms := by
  intro yms
  induction yms with
  | nil =>
    intro s _ _ _ _
    simp [yearsColumnsSpec, yearsSpan, yearsMonthLetters]
  | cons ym rest ih =>
    intro s hmoy hnem hyml hdist
    rw [List.map_cons, List.foldl_cons,
      emitYear_eq sorted_periods s ym.1 ym.2 (hmoy ym (List.mem_cons_self _ _))
        (hnem ym (List.mem_cons_self _ _)) (hyml ym (List.mem_cons_self _ _))]
    have hdh : ∀ ym' ∈ rest, ym.1 ≠ ym'.1 := by
      intro ym' hm
      exact (List.pairwise_cons.1 hdist).1 ym'.1 (List.mem_map.2 ⟨ym', hm, rfl⟩)
    obtain ⟨ihp, ihc, iha⟩ :=
      ih ⟨s.period_columns ++ yearColumnsSpec ym.1 s.current_col ym.2,
           s.current_col + yearSpan ym.2,
           s.all_month_letters ++ quarterMonthLetters ym.2 s.current_col [1, 2, 3, 4],
           fun y => if y = ym.1 then quarterMonthLetters ym.2 s.current_col [1, 2, 3, 4]
                    else s.year_month_letters y⟩
        (fun ym' hm => hmoy ym' (List.mem_cons_of_mem _ hm))
        (fun ym' hm => hnem ym' (List.mem_cons_of_mem _ hm))
        (by
          intro ym' hm
          have hne' : ym'.1 ≠ ym.1 := fun hc => hdh ym' hm hc.symm
          simp only [if_neg hne']
          exact hyml ym' (List.mem_cons_of_mem _ hm))
        (List.pairwise_cons.1 hdist).2
    refine ⟨?_, ?_, ?_⟩
    · rw [ihp]
      simp [yearsColumnsSpec, List.append_assoc]
    · rw [ihc]
      simp only [yearsSpan]
      omega
    · rw [iha]
      simp [yearsMonthLetters, List.append_assoc]

theorem yearsColumnsSpec_filter_month :
    ∀ (yms : List (String × List Nat)) (c : Nat),
      ((yearsColumnsSpec c yms).filter (fun b => b.ptype = "month")).map
          (fun b => b.address) =
        yearsMonthLetters c yms := by
  intro yms
  induction yms with
  | nil => intro c; rfl
  | cons ym rest ih =>
    intro c
    simp only [yearsColumnsSpec, yearsMonthLetters, yearColumnsSpec]
    rw [List.filter_append, List.filter_append, List.map_append, List.map_append,
      quarterColumnsSpec_filter_month, ih]
    have hy : (List.filter (fun b => decide (b.ptype = "month"))
        [(⟨year_label ym.1, "year", ym.2.map (fmtPeriod ym.1),
           some (quarterMonthLetters ym.2 c [1, 2, 3, 4]),
           get_column_letter (c + quarterSpan ym.2 [1, 2, 3, 4])⟩ : PeriodColumn)]) = [] := by
      rw [List.filter_cons]
      simp
    rw [hy]
    simp [List.append_assoc]

theorem strTake_fmtPeriod (y : String) (m : Nat) (hy : y.data.length = 4) :
    strTake (fmtPeriod y m) 4 = y := by
  show String.mk ((fmtPeriod y m).data.take 4) = y
  have hd : (fmtPeriod y m).data = y.data ++ (('-' :: (pad2 m).data) : List Char) := by
    show ((y ++ "-") ++ pad2 m).data = _
    rw [String.data_append, String.data_append]
    simp
  rw [hd, List.take_left' hy]

theorem strDrop_fmtPeriod (y : String) (m : Nat) (hy : y.data.length = 4) :
    strDrop (fmtPeriod y m) 5 = pad2 m := by
  show String.mk ((fmtPeriod y m).data.drop 5) = pad2 m
  have hd : (fmtPeriod y m).data = (y.data ++ ['-']) ++ (pad2 m).data := by
    show ((y ++ "-") ++ pad2 m).data = _
    rw [String.data_append, String.data_append]
  have hlen : (y.data ++ ['-']).length = 5 := by
    rw [List.length_append, hy]
    rfl
  rw [hd, List.drop_left' hlen]

theorem parseNatD_pad2 (m : Nat) (h1 : 1 ≤ m) (h2 : m ≤ 12) :
    parseNatD (pad2 m) = m := by
  interval_cases m <;> decide

theorem strLt_ne (a b : String) (h : strLt a b = true) : a ≠ b := by
  intro heq
  subst heq
  have hf := strLt_asymm a a h
  rw [hf] at h
  exact Bool.noConfusion h

theorem filterMap_eq_self_of {α : Type} (f : α → Option α) :
    ∀ l : List α, (∀ a ∈ l, f a = some a) → l.filterMap f = l := by
  intro l
  induction l with
  | nil => intro _; rfl
  | cons a t ih =>
    intro h
    rw [List.filterMap_cons, h a (List.mem_cons_self _ _), ih]
    intro b hb
    exact h b (List.mem_cons_of_mem _ hb)

theorem flatMap_eq_nil_of {α β : Type} (f : α → List β) :
    ∀ l : List α, (∀ a ∈ l, f a = []) → l.flatMap f = [] := by
  intro l
  induction l with
  | nil => intro _; rfl
  | cons a t ih =>
    intro h
    rw [List.flatMap_cons, h a (List.mem_cons_self _ _), List.nil_append, ih]
    intro b hb
    exact h b (List.mem_cons_of_mem _ hb)

theorem flatMap_congr_of {α β : Type} (f g : α → List β) :
    ∀ l : List α, (∀ a ∈ l, f a = g a) → l.flatMap f = l.flatMap g := by
  intro l
  induction l with
  | nil => intro _; rfl
  | cons a t ih =>
    intro h
    rw [List.flatMap_cons, List.flatMap_cons, h a (List.mem_cons_self _ _),
      ih (fun b hb => h b (List.mem_cons_of_mem _ hb))]

theorem flatMap_single (yms : List (String × List Nat)) :
    ∀ ym ∈ yms, (yms.map Prod.fst).Pairwise (fun a b => a ≠ b) →
      yms.flatMap (fun ym' => if ym'.1 = ym.1 then ym'.2 else []) = ym.2 := by
  induction yms with
  | nil => intro ym hm; cases hm
  | cons ym0 rest ih =>
    intro ym hm hdist
    rcases List.mem_cons.1 hm with rfl | hm
    · rw [List.flatMap_cons, if_pos rfl]
      have hrest : rest.flatMap (fun ym' => if ym'.1 = ym.1 then ym'.2 else []) = [] := by
        refine flatMap_eq_nil_of _ rest ?_
        intro ym' hm'
        have hne : ym.1 ≠ ym'.1 :=
          (List.pairwise_cons.1 hdist).1 ym'.1 (List.mem_map.2 ⟨ym', hm', rfl⟩)
        rw [if_neg (fun hc => hne hc.symm)]
      rw [hrest, List.append_nil]
    · rw [List.flatMap_cons]
      have hne : ym0.1 ≠ ym.1 :=
        (List.pairwise_cons.1 hdist).1 ym.1 (List.mem_map.2 ⟨ym, hm, rfl⟩)
      rw [if_neg hne, List.nil_append]
      exact ih ym hm (List.pairwise_cons.1 hdist).2

theorem months_of_year_grouped (yms : List (String × List Nat))
    (hylen : ∀ ym ∈ yms, (ym.1).data.length = 4)
    (hdist : (yms.map Prod.fst).Pairwise (fun a b => a ≠ b))
    (hmons : ∀ ym ∈ yms, ym.2 ≠ [] ∧ ym.2.Pairwise (· < ·) ∧ ∀ m ∈ ym.2, 1 ≤ m ∧ m ≤ 12) :
    ∀ ym ∈ yms,
      months_of_year (yms.flatMap (fun ym' => ym'.2.map (fmtPeriod ym'.1))) ym.1 = ym.2 := by
  intro ym hm
  unfold months_of_year
  rw [List.filterMap_flatMap]
  have hblocks : ∀ ym' ∈ yms,
      ((ym'.2.map (fmtPeriod ym'.1)).filterMap
        (fun p => if strTake p 4 = ym.1 then some (parseNatD (strDrop p 5)) else none)) =
      (if ym'.1 = ym.1 then ym'.2 else []) := by
    intro ym' hm'
    rw [List.filterMap_map]
    by_cases huv : ym'.1 = ym.1
    · rw [if_pos huv]
      refine filterMap_eq_self_of _ ym'.2 ?_
      intro m hmm
      show (if strTake (fmtPeriod ym'.1 m) 4 = ym.1 then
          some (parseNatD (strDrop (fmtPeriod ym'.1 m) 5)) else none) = some m
      rw [strTake_fmtPeriod ym'.1 m (hylen ym' hm'), if_pos huv,
        strDrop_fmtPeriod ym'.1 m (hylen ym' hm'),
        parseNatD_pad2 m ((hmons ym' hm').2.2 m hmm).1 ((hmons ym' hm').2.2 m hmm).2]
    · rw [if_neg huv]
      refine List.filterMap_eq_nil_iff.2 ?_
      intro m _
      show (if strTake (fmtPeriod ym'.1 m) 4 = ym.1 then
          some (parseNatD (strDrop (fmtPeriod ym'.1 m) 5)) else none) = none
      rw [strTake_fmtPeriod ym'.1 m (hylen ym' hm'), if_neg huv]
  have hflat : yms.flatMap (fun ym' =>
      ((ym'.2.map (fmtPeriod ym'.1)).filterMap
        (fun p => if strTake p 4 = ym.1 then some (parseNatD (strDrop p 5)) else none))) =
      yms.flatMap (fun ym' => if ym'.1 = ym.1 then ym'.2 else []) :=
    flatMap_congr_of _ _ yms hblocks
  rw [hflat, flatMap_single yms ym hm hdist]
  refine pysort_of_pairwise _ ?_
  refine ((hmons ym hm).2.1).imp ?_
  intro a b hab
  exact decide_eq_false (by omega)

theorem firstDedupAux_skip (y : String) :
    ∀ (l : List Nat) (seen r : List String), y ∈ seen →
      firstDedupAux seen (l.map (fun _ => y) ++ r) = firstDedupAux seen r := by
  intro l
  induction l with
  | nil => intro seen r _; rfl
  | cons m t ih =>
    intro seen r hy
    rw [List.map_cons, List.cons_append]
    simp only [firstDedupAux]
    rw [if_pos hy]
    exact ih seen r hy

theorem firstDedupAux_blocks :
    ∀ (yms : List (String × List Nat)) (seen : List String),
      (∀ ym ∈ yms, ym.1 ∉ seen) →
      ((yms.map Prod.fst).Pairwise (fun a b => a ≠ b)) →
      (∀ ym ∈ yms, ym.2 ≠ []) →
      firstDedupAux seen (yms.flatMap (fun ym => ym.2.map (fun _ => ym.1))) =
        yms.map Prod.fst := by
  intro yms
  induction yms with
  | nil => intro seen _ _ _; rfl
  | cons ym rest ih =>
    intro seen hseen hdist hne
    rw [List.flatMap_cons]
    cases hym2 : ym.2 with
    | nil => exact absurd hym2 (hne ym (List.mem_cons_self _ _))
    | cons m t =>
      rw [List.map_cons, List.cons_append]
      simp only [firstDedupAux]
      rw [if_neg (hseen ym (List.mem_cons_self _ _))]
      rw [firstDedupAux_skip ym.1 t (ym.1 :: seen) _ (List.mem_cons_self _ _)]
      rw [List.map_cons]
      congr 1
      refine ih (ym.1 :: seen) ?_ (List.pairwise_cons.1 hdist).2
        (fun ym' hm' => hne ym' (List.mem_cons_of_mem _ hm'))
      intro ym' hm' hc
      rcases List.mem_cons.1 hc with hc1 | hc2
      · exact (List.pairwise_cons.1 hdist).1 ym'.1 (List.mem_map.2 ⟨ym', hm', rfl⟩) hc1.symm
      · exact hseen ym' (List.mem_cons_of_mem _ hm') hc2

theorem years_of_grouped (yms : List (String × List Nat))
    (hylen : ∀ ym ∈ yms, (ym.1).data.length = 4)
    (hsorted : (yms.map Prod.fst).Pairwise (fun a b => strLt a b = true))
    (hne2 : ∀ ym ∈ yms, ym.2 ≠ []) :
    years_of (yms.flatMap (fun ym => ym.2.map (fmtPeriod ym.1))) = yms.map Prod.fst := by
  unfold years_of
  have hmap : (yms.flatMap (fun ym => ym.2.map (fmtPeriod ym.1))).map (fun p => strTake p 4) =
      yms.flatMap (fun ym => ym.2.map (fun _ => ym.1)) := by
    rw [List.map_flatMap]
    refine flatMap_congr_of _ _ yms ?_
    intro ym hm
    rw [List.map_map]
    exact List.map_congr_left (fun m _ => strTake_fmtPeriod ym.1 m (hylen ym hm))
  rw [hmap]
  unfold firstDedup
  rw [firstDedupAux_blocks yms [] (fun ym _ => List.not_mem_nil ym.1)
    (hsorted.imp (fun h => strLt_ne _ _ h)) hne2]
  refine pysort_of_pairwise _ ?_
  exact hsorted.imp (fun h => strLt_asymm _ _ h)

theorem quarter_partition :
    ∀ ms : List Nat, ms.Pairwise (· < ·) → (∀ m ∈ ms, 1 ≤ m ∧ m ≤ 12) →
      [1, 2, 3, 4].flatMap (fun q => ms.filter (inQuarter q)) = ms := by
  intro ms
  induction ms with
  | nil => intro _ _; rfl
  | cons m t ih =>
    intro hp hb
    rcases List.pairwise_cons.1 hp with ⟨hmt, hpt⟩
    obtain ⟨hm1, hm12⟩ := hb m (List.mem_cons_self _ _)
    have hih := ih hpt (fun x hx => hb x (List.mem_cons_of_mem _ hx))
    simp only [List.flatMap_cons, List.flatMap_nil, List.append_nil] at hih ⊢
    have hqv : ∀ q x : Nat, inQuarter q x = true ↔
        quarter_start q ≤ x ∧ x ≤ quarter_start q + 2 := by
      intro q x
      simp [inQuarter]
    have htgt : ∀ q : Nat, (∀ x ∈ t, ¬ inQuarter q x = true) → t.filter (inQuarter q) = [] :=
      fun q h => List.filter_eq_nil_iff.2 h
    by_cases hA : m ≤ 3
    · have h1 : inQuarter 1 m = true := by
        rw [hqv]
        simp only [quarter_start]
        omega
      have h2 : inQuarter 2 m = false := by
        rw [Bool.eq_false_iff]
        rw [ne_eq, hqv]
        simp only [quarter_start]
        omega
      have h3 : inQuarter 3 m = false := by
        rw [Bool.eq_false_iff, ne_eq, hqv]
        simp only [quarter_start]
        omega
      have h4 : inQuarter 4 m = false := by
        rw [Bool.eq_false_iff, ne_eq, hqv]
        simp only [quarter_start]
        omega
      simp only [List.filter_cons, h1, h2, h3, h4, Bool.false_eq_true, if_false, if_true]
      rw [List.cons_append, hih]
    · by_cases hB : m ≤ 6
      · have h1 : t.filter (inQuarter 1) = [] := by
          refine htgt 1 ?_
          intro x hx
          have hmx := hmt x hx
          rw [hqv]
          simp only [quarter_start]
          omega
        have hc1 : inQuarter 1 m = false := by
          rw [Bool.eq_false_iff, ne_eq, hqv]
          simp only [quarter_start]
          omega
        have h2 : inQuarter 2 m = true := by
          rw [hqv]
          simp only [quarter_start]
          omega
        have h3 : inQuarter 3 m = false := by
          rw [Bool.eq_false_iff, ne_eq, hqv]
          simp only [quarter_start]
          omega
        have h4 : inQuarter 4 m = false := by
          rw [Bool.eq_false_iff, ne_eq, hqv]
          simp only [quarter_start]
          omega
        simp only [List.filter_cons, hc1, h2, h3, h4, Bool.false_eq_true, if_false, if_true]
        rw [h1] at hih ⊢
        rw [List.nil_append] at hih ⊢
        rw [List.cons_append, hih]
      · by_cases hC : m ≤ 9
        · have h1 : t.filter (inQuarter 1) = [] := by
            refine htgt 1 ?_
            intro x hx
            have hmx := hmt x hx
            rw [hqv]
            simp only [quarter_start]
            omega
          have h2 : t.filter (inQuarter 2) = [] := by
            refine htgt 2 ?_
            intro x hx
            have hmx := hmt x hx
            rw [hqv]
            simp only [quarter_start]
            omega
          have hc1 : inQuarter 1 m = false := by
            rw [Bool.eq_false_iff, ne_eq, hqv]
            simp only [quarter_start]
            omega
          have hc2 : inQuarter 2 m = false := by
            rw [Bool.eq_false_iff, ne_eq, hqv]
            simp only [quarter_start]
            omega
          have h3 : inQuarter 3 m = true := by
            rw [hqv]
            simp only [quarter_start]
            omega
          have h4 : inQuarter 4 m = false := by
            rw [Bool.eq_false_iff, ne_eq, hqv]
            simp only [quarter_start]
            omega
          simp only [List.filter_cons, hc1, hc2, h3, h4, Bool.false_eq_true, if_false, if_true]
          rw [h1, h2] at hih ⊢
          rw [List.nil_append, List.nil_append] at hih ⊢
          rw [List.cons_append, hih]
        · have h1 : t.filter (inQuarter 1) = [] := by
            refine htgt 1 ?_
            intro x hx
            have hmx := hmt x hx
            rw [hqv]
            simp only [quarter_start]
            omega
          have h2 : t.filter (inQuarter 2) = [] := by
            refine htgt 2 ?_
            intro x hx
            have hmx := hmt x hx
            rw [hqv]
            simp only [quarter_start]
            omega
          have h3 : t.filter (inQuarter 3) = [] := by
            refine htgt 3 ?_
            intro x hx
            have hmx := hmt x hx
            rw [hqv]
            simp only [quarter_start]
            omega
          have hc1 : inQuarter 1 m = false := by
            rw [Bool.eq_false_iff, ne_eq, hqv]
            simp only [quarter_start]
            omega
          have hc2 : inQuarter 2 m = false := by
            rw [Bool.eq_false_iff, ne_eq, hqv]
            simp only [quarter_start]
            omega
          have hc3 : inQuarter 3 m = false := by
            rw [Bool.eq_false_iff, ne_eq, hqv]
            simp only [quarter_start]
            omega
          have h4 : inQuarter 4 m = true := by
            rw [hqv]
            simp only [quarter_start]
            omega
          simp only [List.filter_cons, hc1, hc2, hc3, h4, Bool.false_eq_true, if_false, if_true]
          rw [h1, h2, h3] at hih ⊢
          rw [List.nil_append, List.nil_append, List.nil_append] at hih ⊢
          rw [hih]

theorem monthBucketsFor_ptypes (year : String) :
    ∀ (c : Nat) (l : List Nat) (b : PeriodColumn),
      b ∈ monthBucketsFor year c l → b.ptype = "month" := by
  intro c l
  induction l generalizing c with
  | nil => intro b hb; cases hb
  | cons m ms ih =>
    intro b hb
    rcases List.mem_cons.1 hb with rfl | hb
    · rfl
    · exact ih (c + 1) b hb

theorem quarterColumnsSpec_ptypes (year : String) :
    ∀ (qs : List Nat) (c : Nat) (ms : List Nat) (b : PeriodColumn),
      b ∈ quarterColumnsSpec year c ms qs →
      b.ptype = "month" ∨ b.ptype = "quarter" := by
  intro qs
  induction qs with
  | nil => intro c ms b hb; cases hb
  | cons q qs2 ih =>
    intro c ms b hb
    by_cases he : (ms.filter (inQuarter q)).isEmpty = true
    · rw [quarterColumnsSpec, if_pos he] at hb
      exact ih c ms b hb
    · rw [quarterColumnsSpec, if_neg he] at hb
      rcases List.mem_append.1 hb with hb1 | hb2
      · exact Or.inl (monthBucketsFor_ptypes year c _ b hb1)
      · rcases List.mem_cons.1 hb2 with rfl | hb3
        · exact Or.inr rfl
        · exact ih _ ms b hb3

theorem yearsColumnsSpec_ptypes :
    ∀ (yms : List (String × List Nat)) (c : Nat) (b : PeriodColumn),
      b ∈ yearsColumnsSpec c yms →
      b.ptype = "month" ∨ b.ptype = "quarter" ∨ b.ptype = "year" := by
  intro yms
  induction yms with
  | nil => intro c b hb; cases hb
  | cons ym rest ih =>
    intro c b hb
    rw [yearsColumnsSpec] at hb
    rcases List.mem_append.1 hb with hb1 | hb2
    · rw [yearColumnsSpec] at hb1
      rcases List.mem_append.1 hb1 with hb3 | hb4
      · rcases quarterColumnsSpec_ptypes ym.1 [1, 2, 3, 4] c ym.2 b hb3 with h | h
        · exact Or.inl h
        · exact Or.inr (Or.inl h)
      · rcases List.mem_cons.1 hb4 with rfl | hb5
        · exact Or.inr (Or.inr rfl)
        · cases hb5
    · exact ih _ b hb2

theorem yearsColumnsSpec_months_periods :
    ∀ (yms : List (String × List Nat)) (c : Nat),
      (∀ ym ∈ yms, ym.2.Pairwise (· < ·) ∧ ∀ m ∈ ym.2, 1 ≤ m ∧ m ≤ 12) →
      ((yearsColumnsSpec c yms).filter (fun b => b.ptype = "month")).map
          (fun b => b.periods) =
        yms.flatMap (fun ym => ym.2.map (fun m => [fmtPeriod ym.1 m])) := by
  intro yms
  induction yms with
  | nil => intro c _; rfl
  | cons ym rest ih =>
    intro c hh
    rw [yearsColumnsSpec, List.flatMap_cons, List.filter_append, List.map_append]
    rw [yearColumnsSpec, List.filter_append, List.map_append]
    rw [quarterColumnsSpec_months_periods]
    rw [quarter_partition ym.2 (hh ym (List.mem_cons_self _ _)).1
      (hh ym (List.mem_cons_self _ _)).2]
    have hy : (List.filter (fun b => decide (b.ptype = "month"))
        [(⟨year_label ym.1, "year", ym.2.map (fmtPeriod ym.1),
           some (((quarterColumnsSpec ym.1 c ym.2 [1, 2, 3, 4]).filter
             (fun b => b.ptype = "month")).map (fun b => b.address)),
           get_column_letter (c + quarterSpan ym.2 [1, 2, 3, 4])⟩ : PeriodColumn)]) = [] := by
      rw [List.filter_cons]
      simp
    rw [hy]
    rw [ih _ (fun ym' hm' => hh ym' (List.mem_cons_of_mem _ hm'))]
    simp [List.append_assoc]

theorem buildPeriodColumns_grouped (yms : List (String × List Nat))
    (hne : yms ≠ [])
    (hylen : ∀ ym ∈ yms, (ym.1).data.length = 4)
    (hsorted : (yms.map Prod.fst).Pairwise (fun a b => strLt a b = true))
    (hmons : ∀ ym ∈ yms, ym.2 ≠ [] ∧ ym.2.Pairwise (· < ·) ∧ ∀ m ∈ ym.2, 1 ≤ m ∧ m ≤ 12) :
    buildPeriodColumns (yms.flatMap (fun ym => ym.2.map (fmtPeriod ym.1))) =
      specPeriodColumns yms := by
  have hdist : (yms.map Prod.fst).Pairwise (fun a b => a ≠ b) :=
    hsorted.imp (fun h => strLt_ne _ _ h)
  have hmoy := months_of_year_grouped yms hylen hdist hmons
  have hyrs := years_of_grouped yms hylen hsorted (fun ym hm => (hmons ym hm).1)
  have hps : yms.flatMap (fun ym => ym.2.map (fmtPeriod ym.1)) ≠ [] := by
    cases yms with
    | nil => exact absurd rfl hne
    | cons ym rest =>
      cases hym2 : ym.2 with
      | nil => exact absurd hym2 ((hmons ym (List.mem_cons_self _ _)).1)
      | cons m t => simp [List.flatMap_cons, hym2]
  have hemp : (yms.flatMap (fun ym => ym.2.map (fmtPeriod ym.1))).isEmpty = false := by
    rw [List.isEmpty_eq_false]
    exact hps
  obtain ⟨hpc, hcc, haml⟩ := emitYear_fold (yms.flatMap (fun ym => ym.2.map (fmtPeriod ym.1)))
    yms ⟨[], 2, [], fun _ => []⟩ hmoy (fun ym hm => (hmons ym hm).1) (fun ym _ => rfl) hdist
  simp only [buildPeriodColumns, hemp, Bool.false_eq_true, if_false]
  rw [hyrs, hpc, hcc, haml]
  simp only [specPeriodColumns]
  rw [yearsColumnsSpec_filter_month]
  simp

/-- C1: for every non-empty dataset of distinct PeriodKeys (months grouped by
ascending year, ascending months 1-12 within each year), the Period Hierarchy
Builder produces exactly the spec's layout: per PeriodKey one Month bucket
whose member_periods is that singleton (in dataset order); per quarter with
present months, those Month buckets followed by exactly one Quarter bucket
whose children are exactly those Month buckets' addresses, quarters lacking
present months emitting no bucket; per year exactly one Year bucket whose
children are all of that year's Month bucket addresses in order; and exactly
one final Grand bucket whose children are every Month bucket address of the
dataset in chronological order. -/
theorem claim_C1_period_hierarchy (yms : List (String × List Nat))
    (hne : yms ≠ [])
    (hylen : ∀ ym ∈ yms, (ym.1).data.length = 4)
    (hsorted : (yms.map Prod.fst).Pairwise (fun a b => strLt a b = true))
    (hmons : ∀ ym ∈ yms, ym.2 ≠ [] ∧ ym.2.Pairwise (· < ·) ∧ ∀ m ∈ ym.2, 1 ≤ m ∧ m ≤ 12) :
    buildPeriodColumns (yms.flatMap (fun ym => ym.2.map (fmtPeriod ym.1))) =
      specPeriodColumns yms ∧
    ((buildPeriodColumns (yms.flatMap (fun ym => ym.2.map (fmtPeriod ym.1)))).filter
        (fun b => b.ptype = "month")).map (fun b => b.periods) =
      (yms.flatMap (fun ym => ym.2.map (fmtPeriod ym.1))).map (fun p => [p]) ∧
    ((buildPeriodColumns (yms.flatMap (fun ym => ym.2.map (fmtPeriod ym.1)))).filter
        (fun b => b.ptype = "grand")).map (fun b => b.sum_month_cols) =
      [some (((buildPeriodColumns (yms.flatMap (fun ym => ym.2.map (fmtPeriod ym.1)))).filter
        (fun b => b.ptype = "month")).map (fun b => b.address))] := by
  have hmain := buildPeriodColumns_grouped yms hne hylen hsorted hmons
  refine ⟨hmain, ?_, ?_⟩
  · rw [hmain]
    simp only [specPeriodColumns]
    rw [List.filter_append, List.map_append]
    have hg : (List.filter (fun b => decide (b.ptype = "month"))
        [(⟨"Total", "grand", yms.flatMap (fun ym => ym.2.map (fmtPeriod ym.1)),
           some (((yearsColumnsSpec 2 yms).filter (fun b => b.ptype = "month")).map
             (fun b => b.address)),
           get_column_letter (2 + yearsSpan yms)⟩ : PeriodColumn)]) = [] := by
      rw [List.filter_cons]
      simp
    rw [hg]
    simp only [List.map_nil, List.append_nil]
    rw [yearsColumnsSpec_months_periods yms 2 (fun ym hm => ((hmons ym hm).2))]
    rw [List.map_flatMap]
    refine flatMap_congr_of _ _ yms ?_
    intro ym _
    rw [List.map_map]
    rfl
  · rw [hmain]
    simp only [specPeriodColumns]
    rw [List.filter_append, List.filter_append, List.map_append]
    have hg1 : (yearsColumnsSpec 2 yms).filter (fun b => b.ptype = "grand") = [] := by
      refine List.filter_eq_nil_iff.2 ?_
      intro b hb
      rcases yearsColumnsSpec_ptypes yms 2 b hb with h | h | h <;>
        simp [h]
    have hg2 : (List.filter (fun b => decide (b.ptype = "month"))
        [(⟨"Total", "grand", yms.flatMap (fun ym => ym.2.map (fmtPeriod ym.1)),
           some (((yearsColumnsSpec 2 yms).filter (fun b => b.ptype = "month")).map
             (fun b => b.address)),
           get_column_letter (2 + yearsSpan yms)⟩ : PeriodColumn)]) = [] := by
      rw [List.filter_cons]
      simp
    rw [hg1, hg2]
    simp only [List.map_nil, List.nil_append, List.append_nil]
    rw [List.filter_cons]
    simp

theorem claim_C1_period_hierarchy_witness :
    ((([("2024", [1, 2, 4])] : List (String × List Nat)) ≠ []) ∧
     (∀ ym ∈ ([("2024", [1, 2, 4])] : List (String × List Nat)), (ym.1).data.length = 4)) ∧
    buildPeriodColumns (([("2024", [1, 2, 4])] : List (String × List Nat)).flatMap
        (fun ym => ym.2.map (fmtPeriod ym.1))) =
      specPeriodColumns [("2024", [1, 2, 4])] :=
  ⟨⟨by decide, by decide⟩,
   (claim_C1_period_hierarchy [("2024", [1, 2, 4])] (by decide) (by decide) (by decide)
     (by decide)).1⟩

end SalesRep
